import Mathlib

/-!
# Verification of the NeDBoose query/populate engine and schema-validation pipeline

Shallow embedding of `src/unnamed/part_000` (the `nedboose` module): JS values
become the inductive `Value`, documents become association lists, and the
functions `Schema.validate`, `Query._populate`, `Query._execOne`,
`Query._execMany`, `Model.update` and the `model` factory become the Lean
functions below.  JS `undefined` is represented by `Option.none` on lookups,
JS `null` by `Value.null`.
-/

set_option autoImplicit false

namespace Nedboose

/-- Runtime JS values as stored in documents.  Objects and documents are
association lists of key/value pairs (JS objects have no duplicate keys;
where this matters the theorems carry a `Nodup` well-formedness hypothesis). -/
inductive Value where
  | null : Value
  | str (s : String) : Value
  | num (n : Int) : Value
  | boolV (b : Bool) : Value
  | date (t : Int) : Value
  | arr (xs : List Value) : Value
  | obj (fields : List (String × Value)) : Value

mutual

def Value.decEq : (a b : Value) → Decidable (a = b)
  | .null, .null => .isTrue rfl
  | .str a, .str b =>
    if h : a = b then .isTrue (by rw [h])
    else .isFalse (fun he => h (by cases he; rfl))
  | .num a, .num b =>
    if h : a = b then .isTrue (by rw [h])
    else .isFalse (fun he => h (by cases he; rfl))
  | .boolV a, .boolV b =>
    if h : a = b then .isTrue (by rw [h])
    else .isFalse (fun he => h (by cases he; rfl))
  | .date a, .date b =>
    if h : a = b then .isTrue (by rw [h])
    else .isFalse (fun he => h (by cases he; rfl))
  | .arr xs, .arr ys =>
    match Value.decEqList xs ys with
    | isTrue h => .isTrue (by rw [h])
    | isFalse h => .isFalse (fun he => h (by cases he; rfl))
  | .obj xs, .obj ys =>
    match Value.decEqFields xs ys with
    | isTrue h => .isTrue (by rw [h])
    | isFalse h => .isFalse (fun he => h (by cases he; rfl))
  | .null, .str _ => .isFalse (fun h => by cases h)
  | .null, .num _ => .isFalse (fun h => by cases h)
  | .null, .boolV _ => .isFalse (fun h => by cases h)
  | .null, .date _ => .isFalse (fun h => by cases h)
  | .null, .arr _ => .isFalse (fun h => by cases h)
  | .null, .obj _ => .isFalse (fun h => by cases h)
  | .str _, .null => .isFalse (fun h => by cases h)
  | .str _, .num _ => .isFalse (fun h => by cases h)
  | .str _, .boolV _ => .isFalse (fun h => by cases h)
  | .str _, .date _ => .isFalse (fun h => by cases h)
  | .str _, .arr _ => .isFalse (fun h => by cases h)
  | .str _, .obj _ => .isFalse (fun h => by cases h)
  | .num _, .null => .isFalse (fun h => by cases h)
  | .num _, .str _ => .isFalse (fun h => by cases h)
  | .num _, .boolV _ => .isFalse (fun h => by cases h)
  | .num _, .date _ => .isFalse (fun h => by cases h)
  | .num _, .arr _ => .isFalse (fun h => by cases h)
  | .num _, .obj _ => .isFalse (fun h => by cases h)
  | .boolV _, .null => .isFalse (fun h => by cases h)
  | .boolV _, .str _ => .isFalse (fun h => by cases h)
  | .boolV _, .num _ => .isFalse (fun h => by cases h)
  | .boolV _, .date _ => .isFalse (fun h => by cases h)
  | .boolV _, .arr _ => .isFalse (fun h => by cases h)
  | .boolV _, .obj _ => .isFalse (fun h => by cases h)
  | .date _, .null => .isFalse (fun h => by cases h)
  | .date _, .str _ => .isFalse (fun h => by cases h)
  | .date _, .num _ => .isFalse (fun h => by cases h)
  | .date _, .boolV _ => .isFalse (fun h => by cases h)
  | .date _, .arr _ => .isFalse (fun h => by cases h)
  | .date _, .obj _ => .isFalse (fun h => by cases h)
  | .arr _, .null => .isFalse (fun h => by cases h)
  | .arr _, .str _ => .isFalse (fun h => by cases h)
  | .arr _, .num _ => .isFalse (fun h => by cases h)
  | .arr _, .boolV _ => .isFalse (fun h => by cases h)
  | .arr _, .date _ => .isFalse (fun h => by cases h)
  | .arr _, .obj _ => .isFalse (fun h => by cases h)
  | .obj _, .null => .isFalse (fun h => by cases h)
  | .obj _, .str _ => .isFalse (fun h => by cases h)
  | .obj _, .num _ => .isFalse (fun h => by cases h)
  | .obj _, .boolV _ => .isFalse (fun h => by cases h)
  | .obj _, .date _ => .isFalse (fun h => by cases h)
  | .obj _, .arr _ => .isFalse (fun h => by cases h)
termination_by structural a => a

def Value.decEqList : (xs ys : List Value) → Decidable (xs = ys)
  | [], [] => .isTrue rfl
  | [], _ :: _ => .isFalse (fun h => by cases h)
  | _ :: _, [] => .isFalse (fun h => by cases h)
  | x :: xs, y :: ys =>
    match Value.decEq x y with
    | isTrue h1 =>
      match Value.decEqList xs ys with
      | isTrue h2 => .isTrue (by rw [h1, h2])
      | isFalse h2 => .isFalse (fun he => h2 (by cases he; rfl))
    | isFalse h1 => .isFalse (fun he => h1 (by cases he; rfl))
termination_by structural xs _ => xs

def Value.decEqFields : (xs ys : List (String × Value)) → Decidable (xs = ys)
  | [], [] => .isTrue rfl
  | [], _ :: _ => .isFalse (fun h => by cases h)
  | _ :: _, [] => .isFalse (fun h => by cases h)
  | (k1, v1) :: xs, (k2, v2) :: ys =>
    if hk : k1 = k2 then
      match Value.decEq v1 v2 with
      | isTrue h1 =>
        match Value.decEqFields xs ys with
        | isTrue h2 => .isTrue (by rw [hk, h1, h2])
        | isFalse h2 => .isFalse (fun he => h2 (by cases he; rfl))
      | isFalse h1 => .isFalse (fun he => h1 (by cases he; rfl))
    else .isFalse (fun he => hk (by cases he; rfl))
termination_by structural xs _ => xs

end

instance : DecidableEq Value := Value.decEq

instance {ε α : Type} [DecidableEq ε] [DecidableEq α] : DecidableEq (Except ε α) :=
  fun x y =>
    match x, y with
    | .ok a, .ok b =>
      if h : a = b then .isTrue (by rw [h])
      else .isFalse (fun he => h (by cases he; rfl))
    | .error a, .error b =>
      if h : a = b then .isTrue (by rw [h])
      else .isFalse (fun he => h (by cases he; rfl))
    | .ok _, .error _ => .isFalse (fun h => by cases h)
    | .error _, .ok _ => .isFalse (fun h => by cases h)

/-- A document: a flat key→value association list (JS objects cannot have
duplicate keys; lookup returns the first occurrence). -/
abbrev Doc := List (String × Value)

/-- Nominal runtime type tags, standing for the runtime class references
(`String`, `Number`, `Boolean`, `Date`, `Array`, `Object`) used as the
`type` of a field definition. -/
inductive JType where
  | string | number | boolean | date | array | object
deriving DecidableEq

/-- `value.constructor` as a type tag; `null` has none (the JS check is
guarded by `value != null`). -/
def constructorOf : Value → Option JType
  | .null => none
  | .str _ => some .string
  | .num _ => some .number
  | .boolV _ => some .boolean
  | .date _ => some .date
  | .arr _ => some .array
  | .obj _ => some .object

/-- `doc[key]`: `none` models JS `undefined` (absent key). -/
def dlookup : Doc → String → Option Value
  | [], _ => none
  | (k', v) :: d, k => if k' = k then some v else dlookup d k

/-- Whether a key is present in a document. -/
def hasKey : Doc → String → Bool
  | [], _ => false
  | (k', _) :: d, k => decide (k' = k) || hasKey d k

/-- Overwrite every pair whose key is `k` (a well-formed document has at most
one such pair). -/
def replaceKey (d : Doc) (k : String) (v : Value) : Doc :=
  d.map (fun p => if p.1 = k then (k, v) else p)

/-- JS property assignment `doc[key] = v`: overwrite in place if present,
append otherwise (JS objects keep first-insertion key order). -/
def setKey (d : Doc) (k : String) (v : Value) : Doc :=
  if hasKey d k then replaceKey d k v else d ++ [(k, v)]

/-- `Object.assign(target, updates)` restricted to flat documents: apply the
updates left to right via property assignment. -/
def objectAssign (d : Doc) (updates : Doc) : Doc :=
  updates.foldl (fun acc p => setKey acc p.1 p.2) d

/-- A document is well formed when its keys are distinct (always true of a
JS object). -/
abbrev WfDoc (d : Doc) : Prop := (d.map Prod.fst).Nodup

/-! ## The schema validator (`Schema.validate`) -/

/-- A declared default: either a literal value or a zero-argument generator
function. -/
inductive DefaultVal where
  | lit (v : Value)
  | gen (f : Unit → Value)

/-- One field definition of a schema
(`{ type, required?, default?, ref?, unique?, index?, ttl? }`). -/
structure FieldDef where
  type : JType
  required : Bool := false
  default : Option DefaultVal := none
  ref : Option String := none
  unique : Bool := false
  index : Bool := false
  ttl : Option Nat := none

/-- A schema definition: field name → field definition (JS object, so keys
are distinct; stated as a hypothesis where needed). -/
abbrev SchemaDef := List (String × FieldDef)

/-- `definition[field]`. -/
def flookup : SchemaDef → String → Option FieldDef
  | [], _ => none
  | (k', fd) :: rest, k => if k' = k then some fd else flookup rest k

/-- Errors raised by `Schema.validate`. -/
inductive ValidationError where
  | requiredFieldMissing (field : String)
  | typeMismatch (field : String)
deriving DecidableEq

/-- Materialize a declared default
(`typeof field.default === 'function' ? field.default() : field.default`). -/
def materialize : DefaultVal → Value
  | .lit v => v
  | .gen f => f ()

/-- JS `value === undefined || value === null` (equivalently the loose
`value == null`). -/
def isNullish : Option Value → Bool
  | none => true
  | some .null => true
  | some _ => false

/-- The value of a field after applying the declared default: the default is
materialized when the input value is missing or null and a default is
declared, otherwise the input value stands. -/
def postDefault (fd : FieldDef) (v0 : Option Value) : Option Value :=
  match fd.default with
  | some dv => if isNullish v0 then some (materialize dv) else v0
  | none => v0

/-- The type check `value != null && !(value.constructor === field.type)`. -/
def typeViolation (fd : FieldDef) : Option Value → Bool
  | none => false
  | some .null => false
  | some v => decide (constructorOf v ≠ some fd.type)

/-- The field loop of `Schema.validate`: walk the declared fields in order,
apply defaults, and fail on the first required-field or type violation;
collect the retained field values (in declaration order) on success. -/
def validateLoop (doc : Doc) : SchemaDef → Except ValidationError Doc
  | [] => .ok []
  | (key, fd) :: rest =>
    let value := postDefault fd (dlookup doc key)
    if fd.required && isNullish value then .error (.requiredFieldMissing key)
    else if typeViolation fd value then .error (.typeMismatch key)
    else
      match validateLoop doc rest with
      | .error e => .error e
      | .ok r =>
        .ok (match value with
             | none => r
             | some v => (key, v) :: r)

/-- `Schema.validate`: run the field loop, then return
`Object.assign({}, doc, result)`. -/
def validate (defn : SchemaDef) (doc : Doc) : Except ValidationError Doc :=
  match validateLoop doc defn with
  | .error e => .error e
  | .ok r => .ok (objectAssign doc r)

/-! ## The model registry and the `model` factory -/

/-- Options accepted by the `Model` constructor. -/
structure ModelOptions where
  filename : Option String := none
  inMemoryOnly : Bool := false
  autocompactionInterval : Option Nat := none

/-- The state of a `Model`: its schema definition, construction options and
the documents of its datastore (the I/O side effects of the constructor -
directory creation, index declaration, autocompaction - have no bearing on
the claims and are not modelled). -/
structure ModelState where
  definition : SchemaDef
  options : ModelOptions
  store : List Doc

/-- The process-wide model registry (`modelRegistry : Map`). -/
abbrev Registry := List (String × ModelState)

/-- `modelRegistry.get(name)`. -/
def rlookup : Registry → String → Option ModelState
  | [], _ => none
  | (n', m) :: r, n => if n' = n then some m else rlookup r n

/-- `modelRegistry.has(name)`. -/
def hasName : Registry → String → Bool
  | [], _ => false
  | (n', _) :: r, n => decide (n' = n) || hasName r n

/-- `modelRegistry.set(name, m)`: overwrite in place or append. -/
def rset (reg : Registry) (n : String) (m : ModelState) : Registry :=
  if hasName reg n then reg.map (fun p => if p.1 = n then (n, m) else p)
  else reg ++ [(n, m)]

/-- The `Model` constructor, restricted to its registry-visible effect:
a fresh model state with an empty store, registered under its name. -/
def mkModelState (defn : SchemaDef) (opts : ModelOptions) : ModelState :=
  ⟨defn, opts, []⟩

/-- The `model(name, schemaDef, options)` factory: return the registered
instance when the name is taken, otherwise construct and register a new
model.  Returns the model together with the updated registry. -/
def modelFactory (reg : Registry) (name : String) (defn : SchemaDef)
    (opts : ModelOptions) : ModelState × Registry :=
  match rlookup reg name with
  | some m => (m, reg)
  | none =>
    let m := mkModelState defn opts
    (m, rset reg name m)

/-! ## The populate resolver (`Query._populate`) -/

/-- Configuration errors raised by the populate resolver. -/
inductive PopError where
  | missingRef (field : String)
  | unknownModel (name : String)
deriving DecidableEq

/-- The reference target of a field, as tested by `if (!def?.ref) throw`:
`none` when the field is undeclared, has no `ref`, or has a falsy (empty)
`ref` string. -/
def refNameOf (defn : SchemaDef) (f : String) : Option String :=
  match flookup defn f with
  | none => none
  | some fd =>
    match fd.ref with
    | none => none
    | some r => if r = "" then none else some r

/-- Whether both populate-time configuration checks pass for a field. -/
def configOk (reg : Registry) (defn : SchemaDef) (f : String) : Bool :=
  match refNameOf defn f with
  | none => false
  | some rn => (rlookup reg rn).isSome

/-- The identifiers a single document contributes to the gathered id list:
all elements of an array value, a non-nullish scalar itself, nothing for a
missing or null value. -/
def contribution (f : String) (d : Doc) : List Value :=
  match dlookup d f with
  | some (.arr xs) => xs
  | some .null => []
  | none => []
  | some v => [v]

/-- The ids gathered across the whole result set, in document order. -/
def gatherIds (docs : List Doc) (f : String) : List Value :=
  match docs with
  | [] => []
  | d :: ds => contribution f d ++ gatherIds ds f

/-- Deduplication worker mirroring `new Set`: keep the first occurrence of
each value. -/
def uniqueAux (seen : List Value) : List Value → List Value
  | [] => []
  | x :: xs => if x ∈ seen then uniqueAux seen xs else x :: uniqueAux (x :: seen) xs

/-- `[...new Set(ids)]`: first-occurrence deduplication. -/
def uniqueFirst (l : List Value) : List Value := uniqueAux [] l

/-- Whether a document matches the batch filter `{ _id: { $in: ids } }`. -/
def matchesIdIn (ids : List Value) (d : Doc) : Bool :=
  match dlookup d "_id" with
  | some v => decide (v ∈ ids)
  | none => false

/-- The batched lookup `refModel.find({ _id: { $in: ids } })`: the documents
of the referenced store matching the filter, in store order. -/
def findByIdIn (store : List Doc) (ids : List Value) : List Doc :=
  store.filter (matchesIdIn ids)

/-- Lookup in the JS `Map` built by `new Map(fetched.map(d => [d._id, d]))`:
the last document of `fetched` carrying the given identifier (later `Map`
entries overwrite earlier ones). -/
def findLastId : List Doc → Value → Option Doc
  | [], _ => none
  | d :: ds, v =>
    match findLastId ds v with
    | some r => some r
    | none => if dlookup d "_id" = some v then some d else none

/-- `map.get(val)` where `val` may be `undefined`: every fetched document
carries a defined identifier (it matched the `$in` filter), so an undefined
key never matches. -/
def mapGet (fetched : List Doc) : Option Value → Option Doc
  | some v => findLastId fetched v
  | none => none

/-- Wrap a map hit as a document value, a miss as the null sentinel
(`map.get(val) || null`). -/
def objOrNull : Option Doc → Value
  | some d => .obj d
  | none => .null

/-- The per-document rewrite value of one populated field: an array value is
replaced element-wise (`val.map(id => map.get(id)).filter(x => x)`, dropping
misses), any other value by the matched document or null. -/
def resolveVal (fetched : List Doc) (val : Option Value) : Value :=
  match val with
  | some (.arr xs) => .arr (xs.filterMap (fun id => (findLastId fetched id).map Value.obj))
  | v => objOrNull (mapGet fetched v)

/-- The in-place assignment `doc[field] = ...` of the populate loop. -/
def assignPop (fetched : List Doc) (f : String) (d : Doc) : Doc :=
  setKey d f (resolveVal fetched (dlookup d f))

/-- The documents after populating one field against a referenced store:
unchanged when the deduplicated id set is empty (`continue`), otherwise every
document is rewritten against the batch-fetched documents. -/
def popDocs (store : List Doc) (f : String) (docs : List Doc) : List Doc :=
  let uniq := uniqueFirst (gatherIds docs f)
  if uniq = [] then docs
  else docs.map (assignPop (findByIdIn store uniq) f)

/-- The batched queries issued while populating one field: none when the
deduplicated id set is empty, otherwise exactly the one `$in` query. -/
def popQueries (store : List Doc) (f : String) (docs : List Doc) : List (List Value) :=
  let uniq := uniqueFirst (gatherIds docs f)
  if uniq = [] then [] else [uniq]

/-- `Query._populate(docs)`: process the requested fields in order, checking
the field's `ref` and the registry entry before gathering ids, and threading
the rewritten documents into the next field.  Returns the final documents
together with the issued batch queries, tagged by field. -/
def populateAll (reg : Registry) (defn : SchemaDef) :
    List String → List Doc → Except PopError (List Doc × List (String × List Value))
  | [], docs => .ok (docs, [])
  | f :: fs, docs =>
    match refNameOf defn f with
    | none => .error (.missingRef f)
    | some rn =>
      match rlookup reg rn with
      | none => .error (.unknownModel rn)
      | some m =>
        match populateAll reg defn fs (popDocs m.store f docs) with
        | .error e => .error e
        | .ok (ds, qs) =>
          .ok (ds, (popQueries m.store f docs).map (fun q => (f, q)) ++ qs)

/-! ## Query execution (`Query._execMany`, `Query._execOne`) -/

/-- `Query._buildCursor` + `cursor.exec`: filter, then sort, skip and limit
when set.  The storage engine's sort is an opaque deterministic function of
the matched list (same spec ⇒ same function), so it is a parameter. -/
def buildCursor (store : List Doc) (filt : Doc → Bool)
    (sortFn : Option (List Doc → List Doc)) (skp lim : Option Nat) : List Doc :=
  let matched := store.filter filt
  let sorted := match sortFn with | some s => s matched | none => matched
  let skipped := match skp with | some n => sorted.drop n | none => sorted
  match lim with
  | some n => skipped.take n
  | none => skipped

/-- `Query._execMany`: fetch the cursor results, then populate them. -/
def execMany (reg : Registry) (defn : SchemaDef) (fields : List String)
    (store : List Doc) (filt : Doc → Bool)
    (sortFn : Option (List Doc → List Doc)) (skp lim : Option Nat) :
    Except PopError (List Doc) :=
  match populateAll reg defn fields (buildCursor store filt sortFn skp lim) with
  | .error e => .error e
  | .ok (ds, _) => .ok ds

/-- `Model._findOneRaw`: the storage engine's single-document fetch (first
matching document in store order). -/
def findOneRaw (store : List Doc) (filt : Doc → Bool) : Option Doc :=
  store.find? filt

/-- `Query._execOne`: with sort or skip set, run the many path and take the
first element (`docs[0] || null`); otherwise fetch one document directly and,
only if found, populate it. -/
def execOne (reg : Registry) (defn : SchemaDef) (fields : List String)
    (store : List Doc) (filt : Doc → Bool)
    (sortFn : Option (List Doc → List Doc)) (skp : Option Nat) :
    Except PopError (Option Doc) :=
  if sortFn.isSome || skp.isSome then
    match execMany reg defn fields store filt sortFn skp none with
    | .error e => .error e
    | .ok ds => .ok ds.head?
  else
    match findOneRaw store filt with
    | none => .ok none
    | some d =>
      match populateAll reg defn fields [d] with
      | .error e => .error e
      | .ok (ds, _) => .ok ds.head?

/-! ## `Model.update` and the storage engine's update

The storage engine itself is not part of this repository; `Model.update`
delegates to it after wrapping the patch in a `$set` modifier. -/

/-- An update modifier document: either a plain replacement document or a
`$set` field patch. -/
inductive Modifier where
  | replace (d : Doc)
  | set (fields : Doc)

/-- Apply a modifier to one document: `$set` merges the patch fields into the
document; a plain document replaces it (keeping its identifier). -/
def applyMod : Modifier → Doc → Doc
  | .set fields, d => objectAssign d fields
  | .replace r, d =>
    match dlookup d "_id" with
    | some i => setKey r "_id" i
    | none => r

/-- Update only the first matching document, returning the new store and the
number affected. -/
def updateFirst (filt : Doc → Bool) (m : Modifier) : List Doc → List Doc × Nat
  | [] => ([], 0)
  | d :: ds =>
    if filt d then (applyMod m d :: ds, 1)
    else
      let r := updateFirst filt m ds
      (d :: r.1, r.2)

/-- Modelled from the spec: the Storage Engine's `update` operation (§6) is
an external collaborator absent from `src/`; it is embedded here with the
engine's documented semantics — a `$set` modifier merges fields, a plain
document replaces, `options.multi` selects every matching document while the
default updates only the first match; it returns the number of documents
affected. -/
def storageUpdate (store : List Doc) (filt : Doc → Bool) (m : Modifier)
    (multi : Bool) : List Doc × Nat :=
  if multi then
    (store.map (fun d => if filt d then applyMod m d else d),
     (store.filter filt).length)
  else updateFirst filt m store

/-- `Model.update(query, update, options)`: delegate to the storage engine
with the patch wrapped as `{ $set: update }`. -/
def modelUpdate (store : List Doc) (filt : Doc → Bool) (patch : Doc)
    (multi : Bool) : List Doc × Nat :=
  storageUpdate store filt (.set patch) multi

/-! ## Helper predicates used in theorem statements -/

/-- Whether a validation outcome is a required-field failure. -/
def isRequiredFailure : Except ValidationError Doc → Bool
  | .error (.requiredFieldMissing _) => true
  | _ => false

/-- Whether some declared field is required and still missing or null after
defaulting. -/
def someRequiredMissing (defn : SchemaDef) (doc : Doc) : Bool :=
  defn.any (fun p => p.2.required && isNullish (postDefault p.2 (dlookup doc p.1)))

/-- The first document of a result set (when there is one) has the field
defined (possibly as null). -/
abbrev HeadPres (docs : List Doc) (f : String) : Prop :=
  ∀ d0, docs.head? = some d0 → dlookup d0 f ≠ none

/-- A store whose documents all carry non-null store-assigned identifiers
(stored documents always do). -/
abbrev WfStore (store : List Doc) : Prop :=
  ∀ d ∈ store, dlookup d "_id" ≠ some Value.null

/-- Every store registered in the registry is well formed. -/
abbrev WfRegistry (reg : Registry) : Prop :=
  ∀ p ∈ reg, WfStore p.2.store

/-! ## Concrete data used in witnesses and counterexamples -/

/-- Schema with a number field followed by a required string field. -/
def exDefnPair : SchemaDef :=
  [("a", { type := JType.number }), ("b", { type := JType.string, required := true })]

/-- A book schema whose `author` field references the `Author` model. -/
def exDefnBook : SchemaDef :=
  [("title", { type := JType.string }),
   ("author", { type := JType.string, ref := some "Author" })]

/-- An author schema whose `books` field references the `Book` model. -/
def exDefnAuthor : SchemaDef :=
  [("name", { type := JType.string, required := true }),
   ("books", { type := JType.array, ref := some "Book",
               default := some (.lit (.arr [])) })]

/-- One stored author document. -/
def exAuthorDoc : Doc := [("_id", Value.str "x"), ("name", Value.str "kafka")]

/-- A registry holding only the `Author` model with one stored document. -/
def exRegistryA : Registry := [("Author", ⟨[], {}, [exAuthorDoc]⟩)]

/-- A book without an `author` field. -/
def exBook1 : Doc := [("_id", Value.str "1"), ("s", Value.str "a")]

/-- A book referencing the stored author. -/
def exBook2 : Doc :=
  [("_id", Value.str "2"), ("s", Value.str "b"), ("author", Value.str "x")]

/-- The book store. -/
def exBooks : List Doc := [exBook1, exBook2]

/-- A store of two book documents with identifiers `1` and `3`. -/
def exBookStore : List Doc :=
  [[("_id", Value.str "1"), ("t", Value.str "x")],
   [("_id", Value.str "3"), ("t", Value.str "z")]]

/-- A registry holding only the `Book` model with two stored documents. -/
def exRegistryB : Registry := [("Book", ⟨exDefnBook, {}, exBookStore⟩)]

/-- An author document referencing books `1`, `2`, `3` (book `2` does not
exist). -/
def exAuthor : Doc :=
  [("_id", Value.str "a"),
   ("books", Value.arr [Value.str "1", Value.str "2", Value.str "3"])]

/-- A store of two documents both matching the example filter. -/
def exStoreU : List Doc :=
  [[("_id", Value.str "1"), ("a", Value.num 1)],
   [("_id", Value.str "2"), ("a", Value.num 1)]]

/-- The example filter `{ a: 1 }`. -/
def exFilt : Doc → Bool := fun d => decide (dlookup d "a" = some (Value.num 1))

/-- The example patch `{ b: 2 }`. -/
def exPatch : Doc := [("b", Value.num 2)]

/-! ## Basic lemmas about document operations -/

@[simp] theorem dlookup_cons_self (k : String) (v : Value) (d : Doc) :
    dlookup ((k, v) :: d) k = some v := by simp [dlookup]

theorem dlookup_cons_ne (k k' : String) (v : Value) (d : Doc) (h : k ≠ k') :
    dlookup ((k, v) :: d) k' = dlookup d k' := by simp [dlookup, h]

theorem replaceKey_cons_self (k : String) (v₀ v : Value) (d : Doc) :
    replaceKey ((k, v₀) :: d) k v = (k, v) :: replaceKey d k v := by
  simp [replaceKey]

theorem replaceKey_cons_ne (k₀ k : String) (v₀ v : Value) (d : Doc) (h : k₀ ≠ k) :
    replaceKey ((k₀, v₀) :: d) k v = (k₀, v₀) :: replaceKey d k v := by
  simp [replaceKey, h]

theorem hasKey_iff (d : Doc) (k : String) :
    hasKey d k = true ↔ dlookup d k ≠ none := by
  induction d with
  | nil => simp [hasKey, dlookup]
  | cons p d ih =>
    obtain ⟨k', v⟩ := p
    by_cases h : k' = k
    · subst h; simp [hasKey]
    · simp [hasKey, h, dlookup_cons_ne _ _ _ _ h, ih]

theorem dlookup_replaceKey_self (d : Doc) (k : String) (v : Value)
    (h : dlookup d k ≠ none) : dlookup (replaceKey d k v) k = some v := by
  induction d with
  | nil => simp [dlookup] at h
  | cons p d ih =>
    obtain ⟨k₀, v₀⟩ := p
    by_cases hk : k₀ = k
    · subst hk; rw [replaceKey_cons_self]; simp
    · rw [dlookup_cons_ne _ _ _ _ hk] at h
      rw [replaceKey_cons_ne _ _ _ _ _ hk, dlookup_cons_ne _ _ _ _ hk]
      exact ih h

theorem dlookup_replaceKey_ne (d : Doc) (k k' : String) (v : Value)
    (h : k' ≠ k) : dlookup (replaceKey d k v) k' = dlookup d k' := by
  induction d with
  | nil => rfl
  | cons p d ih =>
    obtain ⟨k₀, v₀⟩ := p
    by_cases hk : k₀ = k
    · subst hk
      rw [replaceKey_cons_self, dlookup_cons_ne _ _ _ _ (fun he => h he.symm),
        dlookup_cons_ne _ _ _ _ (fun he => h he.symm)]
      exact ih
    · rw [replaceKey_cons_ne _ _ _ _ _ hk]
      by_cases hk' : k₀ = k'
      · subst hk'; simp
      · rw [dlookup_cons_ne _ _ _ _ hk', dlookup_cons_ne _ _ _ _ hk']
        exact ih

theorem dlookup_append_self (d : Doc) (k : String) (v : Value)
    (h : dlookup d k = none) : dlookup (d ++ [(k, v)]) k = some v := by
  induction d with
  | nil => simp
  | cons p d ih =>
    obtain ⟨k₀, v₀⟩ := p
    by_cases hk : k₀ = k
    · subst hk; simp at h
    · rw [dlookup_cons_ne _ _ _ _ hk] at h
      rw [List.cons_append, dlookup_cons_ne _ _ _ _ hk]
      exact ih h

theorem dlookup_append_ne (d : Doc) (k k' : String) (v : Value)
    (h : k' ≠ k) : dlookup (d ++ [(k, v)]) k' = dlookup d k' := by
  induction d with
  | nil =>
    have hne : k ≠ k' := fun he => h he.symm
    simp [dlookup, hne]
  | cons p d ih =>
    obtain ⟨k₀, v₀⟩ := p
    by_cases hk' : k₀ = k'
    · subst hk'; simp
    · rw [List.cons_append, dlookup_cons_ne _ _ _ _ hk', dlookup_cons_ne _ _ _ _ hk']
      exact ih

theorem dlookup_setKey_self (d : Doc) (k : String) (v : Value) :
    dlookup (setKey d k v) k = some v := by
  unfold setKey
  by_cases h : hasKey d k = true
  · rw [if_pos h]
    exact dlookup_replaceKey_self d k v ((hasKey_iff d k).mp h)
  · rw [if_neg h]
    refine dlookup_append_self d k v ?_
    by_contra hc
    exact h ((hasKey_iff d k).mpr hc)

theorem dlookup_setKey_ne (d : Doc) (k k' : String) (v : Value) (h : k' ≠ k) :
    dlookup (setKey d k v) k' = dlookup d k' := by
  unfold setKey
  by_cases hk : hasKey d k = true
  · rw [if_pos hk]; exact dlookup_replaceKey_ne d k k' v h
  · rw [if_neg hk]; exact dlookup_append_ne d k k' v h

theorem replaceKey_keys (d : Doc) (k : String) (v : Value) :
    (replaceKey d k v).map Prod.fst = d.map Prod.fst := by
  induction d with
  | nil => rfl
  | cons p d ih =>
    obtain ⟨k₀, v₀⟩ := p
    by_cases h₀ : k₀ = k
    · subst h₀; rw [replaceKey_cons_self]; simpa using ih
    · rw [replaceKey_cons_ne _ _ _ _ _ h₀]; simpa using ih

theorem setKey_keys (d : Doc) (k : String) (v : Value) :
    (setKey d k v).map Prod.fst =
      if hasKey d k then d.map Prod.fst else d.map Prod.fst ++ [k] := by
  unfold setKey
  by_cases hk : hasKey d k = true
  · rw [if_pos hk, if_pos hk, replaceKey_keys]
  · rw [if_neg hk, if_neg hk]; simp

theorem not_hasKey_not_mem_keys (d : Doc) (k : String) :
    hasKey d k = false → k ∉ d.map Prod.fst := by
  induction d with
  | nil => intro _ hmem; simp at hmem
  | cons p d ih =>
    intro hk hmem
    obtain ⟨k₀, v₀⟩ := p
    simp only [hasKey, Bool.or_eq_false_iff, decide_eq_false_iff_not] at hk
    rcases (by simpa using hmem : k = k₀ ∨ ∃ x, (k, x) ∈ d) with hc | ⟨x, hc⟩
    · exact hk.1 hc.symm
    · exact ih hk.2 (List.mem_map.mpr ⟨(k, x), hc, rfl⟩)

theorem WfDoc_setKey (d : Doc) (k : String) (v : Value) (h : WfDoc d) :
    WfDoc (setKey d k v) := by
  unfold WfDoc
  rw [setKey_keys]
  by_cases hk : hasKey d k = true
  · simpa [hk] using h
  · rw [if_neg hk]
    have hnot : k ∉ d.map Prod.fst :=
      not_hasKey_not_mem_keys d k (by simpa using hk)
    rw [List.nodup_append]
    refine ⟨h, List.nodup_singleton k, ?_⟩
    intro a ha hb
    rw [List.mem_singleton] at hb
    subst hb
    exact hnot ha

theorem setKey_same (d : Doc) (k : String) (v : Value)
    (hwf : WfDoc d) (hv : dlookup d k = some v) : setKey d k v = d := by
  have hk : hasKey d k = true := (hasKey_iff d k).mpr (by simp [hv])
  unfold setKey
  rw [if_pos hk]
  induction d with
  | nil => rfl
  | cons p d ih =>
    obtain ⟨k₀, v₀⟩ := p
    have hwf₀ : k₀ ∉ d.map Prod.fst ∧ WfDoc d := by
      simpa [WfDoc, List.nodup_cons] using hwf
    by_cases h₀ : k₀ = k
    · subst h₀
      rw [dlookup_cons_self] at hv
      have hv' : v = v₀ := (Option.some.inj hv).symm
      subst hv'
      rw [replaceKey_cons_self, List.cons.injEq]
      refine ⟨rfl, ?_⟩
      have hcong : ∀ p ∈ d, (if p.1 = k₀ then (k₀, v) else p) = p := by
        intro p hp
        have : p.1 ≠ k₀ := fun he => hwf₀.1 (List.mem_map.mpr ⟨p, hp, he⟩)
        simp [this]
      calc replaceKey d k₀ v = d.map id := List.map_congr_left hcong
        _ = d := List.map_id d
    · rw [dlookup_cons_ne _ _ _ _ h₀] at hv
      have hk' : hasKey d k = true := (hasKey_iff d k).mpr (by simp [hv])
      rw [replaceKey_cons_ne _ _ _ _ _ h₀, List.cons.injEq]
      exact ⟨rfl, ih hwf₀.2 hv hk'⟩

theorem dlookup_objectAssign_not_mem (updates : Doc) (k : String) :
    ∀ d, (∀ p ∈ updates, p.1 ≠ k) →
      dlookup (objectAssign d updates) k = dlookup d k := by
  induction updates with
  | nil => intro d _; rfl
  | cons p updates ih =>
    intro d h
    obtain ⟨k₀, v₀⟩ := p
    have hk₀ : k₀ ≠ k := h (k₀, v₀) (List.mem_cons_self _ _)
    have hrest : ∀ p ∈ updates, p.1 ≠ k := fun p hp => h p (List.mem_cons_of_mem _ hp)
    calc dlookup (objectAssign (setKey d k₀ v₀) updates) k
        = dlookup (setKey d k₀ v₀) k := ih (setKey d k₀ v₀) hrest
      _ = dlookup d k := dlookup_setKey_ne d k₀ k v₀ (fun he => hk₀ he.symm)

theorem dlookup_objectAssign_mem (updates : Doc) (k : String) (v : Value) :
    ∀ d, (updates.map Prod.fst).Nodup → (k, v) ∈ updates →
      dlookup (objectAssign d updates) k = some v := by
  induction updates with
  | nil => intro d _ hmem; simp at hmem
  | cons p updates ih =>
    intro d hnd hmem
    obtain ⟨k₀, v₀⟩ := p
    have hnd' : k₀ ∉ updates.map Prod.fst ∧ (updates.map Prod.fst).Nodup := by
      simpa using hnd
    rcases List.mem_cons.mp hmem with hcase | hcase
    · obtain ⟨rfl, rfl⟩ := Prod.mk.inj hcase
      have hnot : ∀ p ∈ updates, p.1 ≠ k :=
        fun p hp he => hnd'.1 (List.mem_map.mpr ⟨p, hp, he⟩)
      calc dlookup (objectAssign (setKey d k v) updates) k
          = dlookup (setKey d k v) k := dlookup_objectAssign_not_mem updates k _ hnot
        _ = some v := dlookup_setKey_self d k v
    · exact ih (setKey d k₀ v₀) hnd'.2 hcase


/-! ## Lemmas about the schema validator -/

theorem postDefault_none (fd : FieldDef) (v0 : Option Value)
    (h : postDefault fd v0 = none) : v0 = none := by
  cases hfd : fd.default with
  | none => simp only [postDefault, hfd] at h; exact h
  | some dv =>
    simp only [postDefault, hfd] at h
    by_cases hn : isNullish v0 = true
    · rw [if_pos hn] at h; simp at h
    · rw [if_neg hn] at h; exact h

theorem assoc_unique {β : Type} (l : List (String × β)) (k : String) (a b : β)
    (hnd : (l.map Prod.fst).Nodup) (ha : (k, a) ∈ l) (hb : (k, b) ∈ l) : a = b := by
  induction l with
  | nil => simp at ha
  | cons p l ih =>
    obtain ⟨k₀, c⟩ := p
    have hnd' : k₀ ∉ l.map Prod.fst ∧ (l.map Prod.fst).Nodup := by simpa using hnd
    rcases List.mem_cons.mp ha with hc | hc
    · obtain ⟨rfl, rfl⟩ := Prod.mk.inj hc
      rcases List.mem_cons.mp hb with hc' | hc'
      · exact (Prod.mk.inj hc').2.symm
      · exact absurd (List.mem_map.mpr ⟨(k, b), hc', rfl⟩) hnd'.1
    · rcases List.mem_cons.mp hb with hc' | hc'
      · obtain ⟨rfl, rfl⟩ := Prod.mk.inj hc'
        exact absurd (List.mem_map.mpr ⟨(k, a), hc, rfl⟩) hnd'.1
      · exact ih hnd'.2 hc hc'

theorem keys_filterMap_sublist {β : Type} (g : String × β → Option Value)
    (l : List (String × β)) :
    List.Sublist
      ((l.filterMap (fun p => (g p).map (fun v => (p.1, v)))).map Prod.fst)
      (l.map Prod.fst) := by
  induction l with
  | nil => exact List.Sublist.refl []
  | cons a l ih =>
    cases hga : g a with
    | none => simpa [List.filterMap_cons, hga] using ih.cons a.1
    | some v => simpa [List.filterMap_cons, hga] using ih.cons₂ a.1

theorem validateLoop_ok_eq (doc : Doc) :
    ∀ (defn : SchemaDef) (r : Doc), validateLoop doc defn = .ok r →
      r = defn.filterMap
        (fun p => (postDefault p.2 (dlookup doc p.1)).map (fun v => (p.1, v))) := by
  intro defn
  induction defn with
  | nil =>
    intro r h
    simp only [validateLoop, Except.ok.injEq] at h
    simp [h.symm]
  | cons p rest ih =>
    intro r h
    obtain ⟨key, fd⟩ := p
    simp only [validateLoop] at h
    by_cases h₁ : (fd.required && isNullish (postDefault fd (dlookup doc key))) = true
    · rw [if_pos h₁] at h; simp at h
    · rw [if_neg h₁] at h
      by_cases h₂ : typeViolation fd (postDefault fd (dlookup doc key)) = true
      · rw [if_pos h₂] at h; simp at h
      · rw [if_neg h₂] at h
        cases hrec : validateLoop doc rest with
        | error e => rw [hrec] at h; simp at h
        | ok r' =>
          rw [hrec] at h
          simp only [Except.ok.injEq] at h
          cases hval : postDefault fd (dlookup doc key) with
          | none =>
            rw [hval] at h
            simp only at h
            rw [List.filterMap_cons]
            simp only [hval, Option.map_none']
            rw [← h]
            exact ih r' hrec
          | some v =>
            rw [hval] at h
            simp only at h
            rw [List.filterMap_cons]
            simp only [hval, Option.map_some']
            rw [← h, ih r' hrec]

theorem validate_ok_eq (defn : SchemaDef) (doc out : Doc)
    (h : validate defn doc = .ok out) :
    out = objectAssign doc
      (defn.filterMap
        (fun p => (postDefault p.2 (dlookup doc p.1)).map (fun v => (p.1, v)))) := by
  unfold validate at h
  cases hrec : validateLoop doc defn with
  | error e => rw [hrec] at h; simp at h
  | ok r =>
    rw [hrec] at h
    simp only [Except.ok.injEq] at h
    rw [← h, validateLoop_ok_eq doc defn r hrec]

theorem validate_extra_key (defn : SchemaDef) (doc out : Doc)
    (h : validate defn doc = .ok out) (k : String)
    (hk : k ∉ defn.map Prod.fst) : dlookup out k = dlookup doc k := by
  rw [validate_ok_eq defn doc out h]
  refine dlookup_objectAssign_not_mem _ k doc ?_
  intro p hp he
  have : p.1 ∈ defn.map Prod.fst :=
    (keys_filterMap_sublist _ defn).mem (List.mem_map.mpr ⟨p, hp, rfl⟩)
  rw [he] at this
  exact hk this

theorem validate_declared_key (defn : SchemaDef) (doc out : Doc)
    (h : validate defn doc = .ok out) (hnd : (defn.map Prod.fst).Nodup)
    (k : String) (fd : FieldDef) (hmem : (k, fd) ∈ defn) :
    dlookup out k = postDefault fd (dlookup doc k) := by
  rw [validate_ok_eq defn doc out h]
  cases hval : postDefault fd (dlookup doc k) with
  | some v =>
    refine dlookup_objectAssign_mem _ k v doc ?_ ?_
    · exact ((keys_filterMap_sublist _ defn).nodup hnd)
    · exact List.mem_filterMap.mpr ⟨(k, fd), hmem, by rw [hval]; rfl⟩
  | none =>
    have hnomem : ∀ p ∈ defn.filterMap
        (fun p => (postDefault p.2 (dlookup doc p.1)).map (fun v => (p.1, v))),
        p.1 ≠ k := by
      intro p hp he
      obtain ⟨⟨k₂, fd₂⟩, hmem₂, heq⟩ := List.mem_filterMap.mp hp
      cases hpd : postDefault fd₂ (dlookup doc k₂) with
      | none => rw [hpd] at heq; simp at heq
      | some w =>
        rw [hpd] at heq
        simp only [Option.map_some', Option.some.injEq] at heq
        have hk₂ : k₂ = k := by rw [← heq] at he; exact he
        subst hk₂
        have : fd₂ = fd := assoc_unique defn k₂ fd₂ fd hnd hmem₂ hmem
        rw [this, hval] at hpd
        simp at hpd
    rw [dlookup_objectAssign_not_mem _ k doc hnomem]
    exact postDefault_none fd _ hval

theorem validateLoop_error_rfm (doc : Doc) :
    ∀ (defn : SchemaDef) (k : String),
      validateLoop doc defn = .error (.requiredFieldMissing k) →
      ∃ fd, (k, fd) ∈ defn ∧ fd.required = true ∧
        isNullish (postDefault fd (dlookup doc k)) = true := by
  intro defn
  induction defn with
  | nil => intro k h; simp [validateLoop] at h
  | cons p rest ih =>
    intro k h
    obtain ⟨key, fd⟩ := p
    simp only [validateLoop] at h
    by_cases h₁ : (fd.required && isNullish (postDefault fd (dlookup doc key))) = true
    · rw [if_pos h₁] at h
      simp only [Except.error.injEq, ValidationError.requiredFieldMissing.injEq] at h
      subst h
      obtain ⟨hreq, hnull⟩ :
          fd.required = true ∧ isNullish (postDefault fd (dlookup doc key)) = true := by
        simpa using h₁
      exact ⟨fd, List.mem_cons_self _ _, hreq, hnull⟩
    · rw [if_neg h₁] at h
      by_cases h₂ : typeViolation fd (postDefault fd (dlookup doc key)) = true
      · rw [if_pos h₂] at h; simp at h
      · rw [if_neg h₂] at h
        cases hrec : validateLoop doc rest with
        | error e =>
          rw [hrec] at h
          simp only [Except.error.injEq] at h
          obtain ⟨fd', hmem, hreq, hnull⟩ := ih k (by rw [hrec, h])
          exact ⟨fd', List.mem_cons_of_mem _ hmem, hreq, hnull⟩
        | ok r => rw [hrec] at h; cases hval : postDefault fd (dlookup doc key) <;>
            rw [hval] at h <;> simp at h

theorem isRequiredFailure_validate (defn : SchemaDef) (doc : Doc) :
    isRequiredFailure (validate defn doc) = isRequiredFailure (validateLoop doc defn) := by
  unfold validate
  cases hrec : validateLoop doc defn with
  | error e => rfl
  | ok r => rfl

theorem validateLoop_rfm_iff (doc : Doc) :
    ∀ (defn : SchemaDef),
      (∀ p ∈ defn, typeViolation p.2 (postDefault p.2 (dlookup doc p.1)) = false) →
      isRequiredFailure (validateLoop doc defn) = someRequiredMissing defn doc := by
  intro defn
  induction defn with
  | nil => intro _; rfl
  | cons p rest ih =>
    intro hty
    obtain ⟨key, fd⟩ := p
    have htyh : typeViolation fd (postDefault fd (dlookup doc key)) = false :=
      hty (key, fd) (List.mem_cons_self _ _)
    have htyr : ∀ p ∈ rest, typeViolation p.2 (postDefault p.2 (dlookup doc p.1)) = false :=
      fun p hp => hty p (List.mem_cons_of_mem _ hp)
    simp only [validateLoop, someRequiredMissing, List.any_cons]
    by_cases h₁ : (fd.required && isNullish (postDefault fd (dlookup doc key))) = true
    · rw [if_pos h₁, h₁]
      rfl
    · rw [if_neg h₁, if_neg (by simp [htyh])]
      have hrhs : (fd.required && isNullish (postDefault fd (dlookup doc key))) = false :=
        Bool.eq_false_iff.mpr h₁
      rw [hrhs, Bool.false_or]
      have := ih htyr
      simp only [someRequiredMissing] at this
      rw [← this]
      cases hrec : validateLoop doc rest with
      | error e => rfl
      | ok r => rfl



/-! ## Registry lemmas -/

theorem hasName_iff (reg : Registry) (n : String) :
    hasName reg n = true ↔ rlookup reg n ≠ none := by
  induction reg with
  | nil => simp [hasName, rlookup]
  | cons p r ih =>
    obtain ⟨n', m⟩ := p
    by_cases h : n' = n
    · subst h; simp [hasName, rlookup]
    · simp [hasName, rlookup, h, ih]

theorem rlookup_append_fresh (reg : Registry) (n : String) (m : ModelState) :
    rlookup reg n = none → rlookup (reg ++ [(n, m)]) n = some m := by
  induction reg with
  | nil => intro _; simp [rlookup]
  | cons p r ih =>
    intro h
    obtain ⟨n₀, m₀⟩ := p
    by_cases h₀ : n₀ = n
    · subst h₀; simp [rlookup] at h
    · simp only [rlookup, if_neg h₀] at h
      rw [List.cons_append]
      simp only [rlookup, if_neg h₀]
      exact ih h

/-! ## Update lemmas -/

theorem updateFirst_no_match (filt : Doc → Bool) (m : Modifier) :
    ∀ store : List Doc, store.filter filt = [] →
      updateFirst filt m store = (store, 0) := by
  intro store
  induction store with
  | nil => intro _; rfl
  | cons d ds ih =>
    intro h
    rw [List.filter_cons] at h
    by_cases hd : filt d = true
    · rw [if_pos (by simp [hd])] at h; simp at h
    · rw [if_neg (by simp [hd])] at h
      simp [updateFirst, hd, ih h]

theorem updateFirst_first_match (filt : Doc → Bool) (m : Modifier) :
    ∀ (pre : List Doc) (d : Doc) (post : List Doc),
      (∀ x ∈ pre, filt x = false) → filt d = true →
      updateFirst filt m (pre ++ d :: post) = (pre ++ applyMod m d :: post, 1) := by
  intro pre
  induction pre with
  | nil => intro d post _ hd; simp [updateFirst, hd]
  | cons x pre ih =>
    intro d post hpre hd
    have hx : filt x = false := hpre x (List.mem_cons_self _ _)
    simp [updateFirst, hx,
      ih d post (fun y hy => hpre y (List.mem_cons_of_mem _ hy)) hd]

/-! ## Claim theorems: validator, factory, update -/

/-- C7: for every schema definition and every input document that validates
successfully, the output is the shallow merge of the input with the
defaulted/validated values of the declared fields: every key of the input not
mentioned in the schema keeps its input value in the output, and (for a
well-formed schema) every declared key holds its post-default value.
`validate` is embedded as a pure function of the definition and the input, so
the input document itself is never modified. -/
theorem C7_validate_shallow_merge (defn : SchemaDef) (doc out : Doc)
    (hok : validate defn doc = .ok out) :
    (∀ k, k ∉ defn.map Prod.fst → dlookup out k = dlookup doc k) ∧
    ((defn.map Prod.fst).Nodup →
      ∀ k fd, (k, fd) ∈ defn → dlookup out k = postDefault fd (dlookup doc k)) :=
  ⟨fun k hk => validate_extra_key defn doc out hok k hk,
   fun hnd k fd hmem => validate_declared_key defn doc out hok hnd k fd hmem⟩

theorem C7_validate_shallow_merge_witness :
    validate exDefnAuthor [("name", Value.str "kafka"), ("extra", Value.num 7)] =
      .ok [("name", Value.str "kafka"), ("extra", Value.num 7), ("books", Value.arr [])] ∧
    dlookup [("name", Value.str "kafka"), ("extra", Value.num 7), ("books", Value.arr [])]
        "extra" =
      dlookup [("name", Value.str "kafka"), ("extra", Value.num 7)] "extra" :=
  ⟨by decide,
   (C7_validate_shallow_merge exDefnAuthor
      [("name", Value.str "kafka"), ("extra", Value.num 7)]
      [("name", Value.str "kafka"), ("extra", Value.num 7), ("books", Value.arr [])]
      (by decide)).1 "extra" (by decide)⟩

/-- C8 as stated is refuted by this input: the required field `b` is still
missing after defaulting, yet validation does not fail with
`RequiredFieldMissing` — the earlier field `a` fails its type check first and
`TypeMismatch` is raised instead, so the claimed equivalence is false. -/
theorem C8_required_counterexample :
    someRequiredMissing exDefnPair [("a", Value.str "x")] = true ∧
    validate exDefnPair [("a", Value.str "x")] = .error (.typeMismatch "a") ∧
    isRequiredFailure (validate exDefnPair [("a", Value.str "x")]) = false :=
  ⟨by decide, by decide, by decide⟩

/-- C8 (amended): validate materializes a declared default for any field
whose value is missing or null (invoking a zero-argument generator, else
using the literal), and — provided no declared field fails its type check —
fails with `RequiredFieldMissing` if and only if some field marked required
still has a missing or null value after defaulting.  (Without that proviso a
type mismatch on an earlier declared field preempts the required-field
error.)  Failing with `RequiredFieldMissing` on a field always means that
field is required and missing/null after defaulting. -/
theorem C8_defaults_and_required (defn : SchemaDef) (doc : Doc) :
    (∀ (fd : FieldDef) (v0 : Option Value) (dv : DefaultVal),
        isNullish v0 = true → fd.default = some dv →
        postDefault fd v0 = some (materialize dv)) ∧
    (∀ (g : Unit → Value), materialize (.gen g) = g ()) ∧
    (∀ v, materialize (.lit v) = v) ∧
    (∀ k, validate defn doc = .error (.requiredFieldMissing k) →
        ∃ fd, (k, fd) ∈ defn ∧ fd.required = true ∧
          isNullish (postDefault fd (dlookup doc k)) = true) ∧
    ((∀ p ∈ defn, typeViolation p.2 (postDefault p.2 (dlookup doc p.1)) = false) →
        isRequiredFailure (validate defn doc) = someRequiredMissing defn doc) := by
  refine ⟨?_, fun g => rfl, fun v => rfl, ?_, ?_⟩
  · intro fd v0 dv hn hd
    simp [postDefault, hd, hn]
  · intro k h
    refine validateLoop_error_rfm doc defn k ?_
    unfold validate at h
    cases hrec : validateLoop doc defn with
    | error e =>
      rw [hrec] at h
      simp only [Except.error.injEq] at h
      rw [h]
    | ok r => rw [hrec] at h; simp at h
  · intro hty
    rw [isRequiredFailure_validate]
    exact validateLoop_rfm_iff doc defn hty

theorem C8_defaults_and_required_witness :
    isRequiredFailure (validate exDefnPair []) = someRequiredMissing exDefnPair [] ∧
    postDefault { type := JType.array, default := some (.lit (.arr [])) } none =
      some (materialize (.lit (.arr []))) :=
  ⟨(C8_defaults_and_required exDefnPair []).2.2.2.2 (by decide),
   (C8_defaults_and_required exDefnPair []).1
      { type := JType.array, default := some (.lit (.arr [])) } none
      (.lit (.arr [])) (by decide) rfl⟩

/-- C9: calling the model factory a second time with a name returns exactly
the state produced by the first call — the registered instance — and leaves
the registry unchanged, ignoring the second call's schema definition and
options entirely. -/
theorem C9_model_factory_idempotent (reg : Registry) (name : String)
    (s1 s2 : SchemaDef) (o1 o2 : ModelOptions) :
    modelFactory (modelFactory reg name s1 o1).2 name s2 o2 =
      modelFactory reg name s1 o1 := by
  unfold modelFactory
  cases h : rlookup reg name with
  | some m => simp [h]
  | none =>
    simp only [h]
    have hk : ¬hasName reg name = true :=
      fun hc => (hasName_iff reg name).mp hc h
    have hset : rlookup (rset reg name (mkModelState s1 o1)) name =
        some (mkModelState s1 o1) := by
      unfold rset
      rw [if_neg hk]
      exact rlookup_append_fresh reg name _ h
    simp [hset]

/-- C2 as stated is refuted by this input: with the default options (no
`multi` flag) the storage engine patches only the first matching document —
the second document also matches the filter but is returned unchanged, so the
patch is not applied to all matching documents. -/
theorem C2_update_counterexample :
    exFilt [("_id", Value.str "2"), ("a", Value.num 1)] = true ∧
    modelUpdate exStoreU exFilt exPatch false =
      ([[("_id", Value.str "1"), ("a", Value.num 1), ("b", Value.num 2)],
        [("_id", Value.str "2"), ("a", Value.num 1)]], 1) :=
  ⟨by decide, by decide⟩

/-- C2 (amended): `Model.update` always applies a field-level merge patch
(`$set`), never a full replacement: keys outside the patch keep their values
and patch keys take the patched values.  With `multi` set it patches every
matching document and returns the count of matching documents; with the
default options it patches only the first matching document (returning 1, or
0 when nothing matches). -/
theorem C2_update_merge_patch (store : List Doc) (filt : Doc → Bool) (patch : Doc) :
    (modelUpdate store filt patch true =
      (store.map (fun d => if filt d then objectAssign d patch else d),
       (store.filter filt).length)) ∧
    (∀ (d : Doc) (k : String), k ∉ patch.map Prod.fst →
      dlookup (objectAssign d patch) k = dlookup d k) ∧
    (∀ (d : Doc) (k : String) (v : Value), (patch.map Prod.fst).Nodup →
      (k, v) ∈ patch → dlookup (objectAssign d patch) k = some v) ∧
    (store.filter filt = [] → modelUpdate store filt patch false = (store, 0)) ∧
    (∀ (pre : List Doc) (d : Doc) (post : List Doc),
      store = pre ++ d :: post → (∀ x ∈ pre, filt x = false) → filt d = true →
      modelUpdate store filt patch false = (pre ++ objectAssign d patch :: post, 1)) := by
  refine ⟨rfl, ?_, ?_, ?_, ?_⟩
  · intro d k hk
    exact dlookup_objectAssign_not_mem patch k d
      (fun p hp he => hk (List.mem_map.mpr ⟨p, hp, he⟩))
  · intro d k v hnd hmem
    exact dlookup_objectAssign_mem patch k v d hnd hmem
  · intro h
    exact updateFirst_no_match filt _ store h
  · intro pre d post hst hpre hd
    rw [hst]
    exact updateFirst_first_match filt _ pre d post hpre hd

theorem C2_update_merge_patch_witness :
    modelUpdate exStoreU exFilt exPatch false =
      (([] : List Doc) ++
        objectAssign [("_id", Value.str "1"), ("a", Value.num 1)] exPatch ::
        [[("_id", Value.str "2"), ("a", Value.num 1)]], 1) :=
  (C2_update_merge_patch exStoreU exFilt exPatch).2.2.2.2 []
    [("_id", Value.str "1"), ("a", Value.num 1)]
    [[("_id", Value.str "2"), ("a", Value.num 1)]]
    (by decide) (by decide) (by decide)



/-! ## Lemmas about the populate resolver: gathering and deduplication -/

theorem mem_uniqueAux (x : Value) : ∀ (l seen : List Value),
    x ∈ uniqueAux seen l ↔ x ∈ l ∧ x ∉ seen := by
  intro l
  induction l with
  | nil => intro seen; simp [uniqueAux]
  | cons y l ih =>
    intro seen
    by_cases hy : y ∈ seen
    · rw [uniqueAux, if_pos hy, ih]
      constructor
      · rintro ⟨hx, hns⟩; exact ⟨List.mem_cons_of_mem _ hx, hns⟩
      · rintro ⟨hx, hns⟩
        rcases List.mem_cons.mp hx with rfl | hx
        · exact absurd hy hns
        · exact ⟨hx, hns⟩
    · rw [uniqueAux, if_neg hy]
      constructor
      · intro hx
        rcases List.mem_cons.mp hx with rfl | hx
        · exact ⟨List.mem_cons_self _ _, hy⟩
        · obtain ⟨h1, h2⟩ := (ih (y :: seen)).mp hx
          exact ⟨List.mem_cons_of_mem _ h1, fun hc => h2 (List.mem_cons_of_mem _ hc)⟩
      · rintro ⟨hx, hns⟩
        rcases List.mem_cons.mp hx with rfl | hx
        · exact List.mem_cons_self _ _
        · by_cases hxy : x = y
          · subst hxy; exact List.mem_cons_self _ _
          · refine List.mem_cons_of_mem _ ((ih (y :: seen)).mpr ⟨hx, ?_⟩)
            intro hc
            rcases List.mem_cons.mp hc with hc | hc
            · exact hxy hc
            · exact hns hc

theorem mem_uniqueFirst (x : Value) (l : List Value) :
    x ∈ uniqueFirst l ↔ x ∈ l := by
  rw [uniqueFirst, mem_uniqueAux]
  simp

theorem nodup_uniqueAux : ∀ (l seen : List Value), (uniqueAux seen l).Nodup := by
  intro l
  induction l with
  | nil => intro seen; exact List.nodup_nil
  | cons y l ih =>
    intro seen
    by_cases hy : y ∈ seen
    · rw [uniqueAux, if_pos hy]; exact ih seen
    · rw [uniqueAux, if_neg hy]
      refine List.nodup_cons.mpr ⟨?_, ih (y :: seen)⟩
      intro hc
      exact ((mem_uniqueAux y l (y :: seen)).mp hc).2 (List.mem_cons_self _ _)

theorem nodup_uniqueFirst (l : List Value) : (uniqueFirst l).Nodup :=
  nodup_uniqueAux l []

theorem uniqueFirst_nil_iff (l : List Value) : uniqueFirst l = [] ↔ l = [] := by
  constructor
  · intro h
    cases l with
    | nil => rfl
    | cons y l =>
      rw [uniqueFirst, uniqueAux, if_neg (List.not_mem_nil y)] at h
      exact absurd h (List.cons_ne_nil _ _)
  · intro h; subst h; rfl

theorem mem_contribution_arr (f : String) (d : Doc) (xs : List Value) (x : Value)
    (hv : dlookup d f = some (.arr xs)) (hx : x ∈ xs) : x ∈ contribution f d := by
  simp only [contribution, hv]
  exact hx

theorem mem_contribution_scalar (f : String) (d : Doc) (v : Value)
    (hv : dlookup d f = some v) (hna : ∀ xs, v ≠ .arr xs) (hnn : v ≠ .null) :
    v ∈ contribution f d := by
  simp only [contribution, hv]
  cases v with
  | null => exact absurd rfl hnn
  | arr xs => exact absurd rfl (hna xs)
  | str s => exact List.mem_singleton.mpr rfl
  | num n => exact List.mem_singleton.mpr rfl
  | boolV b => exact List.mem_singleton.mpr rfl
  | date t => exact List.mem_singleton.mpr rfl
  | obj fs => exact List.mem_singleton.mpr rfl

theorem contribution_subset_gather (f : String) : ∀ (docs : List Doc) (d : Doc),
    d ∈ docs → ∀ x ∈ contribution f d, x ∈ gatherIds docs f := by
  intro docs
  induction docs with
  | nil => intro d hd; simp at hd
  | cons e ds ih =>
    intro d hd x hx
    rw [gatherIds]
    rcases List.mem_cons.mp hd with rfl | hd
    · exact List.mem_append_left _ hx
    · exact List.mem_append_right _ (ih d hd x hx)

theorem gather_nil_contribution (f : String) : ∀ (docs : List Doc),
    gatherIds docs f = [] → ∀ d ∈ docs, contribution f d = [] := by
  intro docs
  induction docs with
  | nil => intro _ d hd; simp at hd
  | cons e ds ih =>
    intro h d hd
    rw [gatherIds] at h
    obtain ⟨h1, h2⟩ := List.append_eq_nil.mp h
    rcases List.mem_cons.mp hd with rfl | hd
    · exact h1
    · exact ih h2 d hd

theorem contribution_nil_arr (f : String) (d : Doc) (xs : List Value)
    (hv : dlookup d f = some (.arr xs)) (h : contribution f d = []) : xs = [] := by
  simp only [contribution, hv] at h
  exact h

theorem contribution_nil_scalar (f : String) (d : Doc) (v : Value)
    (hv : dlookup d f = some v) (hna : ∀ xs, v ≠ .arr xs)
    (h : contribution f d = []) : v = .null := by
  by_contra hnn
  have := mem_contribution_scalar f d v hv hna hnn
  rw [h] at this
  simp at this

/-! ## Lemmas about the batch fetch and the lookup map -/

theorem findLastId_mem : ∀ (l : List Doc) (v : Value) (d : Doc),
    findLastId l v = some d → d ∈ l ∧ dlookup d "_id" = some v := by
  intro l
  induction l with
  | nil => intro v d h; simp [findLastId] at h
  | cons e ds ih =>
    intro v d h
    simp only [findLastId] at h
    cases hrec : findLastId ds v with
    | some r =>
      rw [hrec] at h
      simp only [Option.some.injEq] at h
      subst h
      obtain ⟨hm, hid⟩ := ih v r hrec
      exact ⟨List.mem_cons_of_mem _ hm, hid⟩
    | none =>
      rw [hrec] at h
      simp only at h
      by_cases he : dlookup e "_id" = some v
      · rw [if_pos he] at h
        simp only [Option.some.injEq] at h
        subst h
        exact ⟨List.mem_cons_self _ _, he⟩
      · rw [if_neg he] at h; simp at h

theorem findLastId_none_of_null_free (l : List Doc)
    (h : ∀ d ∈ l, dlookup d "_id" ≠ some Value.null) :
    findLastId l Value.null = none := by
  cases hf : findLastId l Value.null with
  | none => rfl
  | some d =>
    obtain ⟨hm, hid⟩ := findLastId_mem l Value.null d hf
    exact absurd hid (h d hm)

theorem findByIdIn_subset (store : List Doc) (ids : List Value) (d : Doc)
    (h : d ∈ findByIdIn store ids) : d ∈ store := List.mem_of_mem_filter h

theorem findLastId_findByIdIn (v : Value) (ids : List Value) (hv : v ∈ ids) :
    ∀ store : List Doc, findLastId (findByIdIn store ids) v = findLastId store v := by
  intro store
  induction store with
  | nil => rfl
  | cons d ds ih =>
    simp only [findByIdIn, List.filter_cons] at ih ⊢
    by_cases hd : matchesIdIn ids d = true
    · rw [if_pos hd]
      simp only [findLastId]
      rw [ih]
    · rw [if_neg hd]
      rw [ih]
      conv_rhs => rw [findLastId]
      cases hrec : findLastId ds v with
      | some r => rfl
      | none =>
        have hne : dlookup d "_id" ≠ some v := by
          intro hc
          refine hd ?_
          unfold matchesIdIn
          rw [hc]
          simpa using hv
        rw [if_neg hne]



/-! ## Per-document resolution lemmas -/

theorem filterMap_congr_mem {α β : Type} (l : List α) (f g : α → Option β)
    (h : ∀ a ∈ l, f a = g a) : l.filterMap f = l.filterMap g := by
  induction l with
  | nil => rfl
  | cons a l ih =>
    rw [List.filterMap_cons, List.filterMap_cons,
      h a (List.mem_cons_self _ _), ih (fun b hb => h b (List.mem_cons_of_mem _ hb))]

theorem resolveVal_arr_eq (store : List Doc) (uniq : List Value) (xs : List Value)
    (hsub : ∀ x ∈ xs, x ∈ uniq) :
    resolveVal (findByIdIn store uniq) (some (.arr xs)) =
      resolveVal store (some (.arr xs)) := by
  simp only [resolveVal]
  congr 1
  refine filterMap_congr_mem xs _ _ ?_
  intro x hx
  rw [findLastId_findByIdIn x uniq (hsub x hx)]

theorem resolveVal_scalar_eq_objOrNull (l : List Doc) (v : Value)
    (hna : ∀ xs, v ≠ .arr xs) :
    resolveVal l (some v) = objOrNull (findLastId l v) := by
  cases v with
  | arr xs => exact absurd rfl (hna xs)
  | null => rfl
  | str s => rfl
  | num n => rfl
  | boolV b => rfl
  | date t => rfl
  | obj fs => rfl

theorem resolveVal_none_eq (l : List Doc) : resolveVal l none = Value.null := rfl

theorem resolveVal_scalar_eq (store : List Doc) (uniq : List Value) (v : Value)
    (hna : ∀ xs, v ≠ .arr xs) (hv : v ∈ uniq) :
    resolveVal (findByIdIn store uniq) (some v) = resolveVal store (some v) := by
  rw [resolveVal_scalar_eq_objOrNull _ v hna, resolveVal_scalar_eq_objOrNull _ v hna,
    findLastId_findByIdIn v uniq hv]

theorem resolveVal_null_eq (store : List Doc) (uniq : List Value)
    (hstore : WfStore store) :
    resolveVal (findByIdIn store uniq) (some Value.null) = Value.null ∧
    resolveVal store (some Value.null) = Value.null := by
  constructor
  · rw [resolveVal_scalar_eq_objOrNull _ _ (fun xs h => by cases h)]
    rw [findLastId_none_of_null_free]
    · rfl
    · intro d hd
      exact hstore d (findByIdIn_subset store uniq d hd)
  · rw [resolveVal_scalar_eq_objOrNull _ _ (fun xs h => by cases h)]
    rw [findLastId_none_of_null_free store hstore]
    rfl

/-! ## Lemmas about populating one field -/

theorem popDocs_nil_uniq (store : List Doc) (f : String) (docs : List Doc)
    (h : uniqueFirst (gatherIds docs f) = []) : popDocs store f docs = docs := by
  simp only [popDocs]
  rw [if_pos h]

theorem popDocs_map (store : List Doc) (f : String) (docs : List Doc)
    (h : uniqueFirst (gatherIds docs f) ≠ []) :
    popDocs store f docs =
      docs.map (assignPop (findByIdIn store (uniqueFirst (gatherIds docs f))) f) := by
  simp only [popDocs]
  rw [if_neg h]

theorem popQueries_nil_uniq (store : List Doc) (f : String) (docs : List Doc)
    (h : uniqueFirst (gatherIds docs f) = []) : popQueries store f docs = [] := by
  simp only [popQueries]
  rw [if_pos h]

theorem popQueries_one (store : List Doc) (f : String) (docs : List Doc)
    (h : uniqueFirst (gatherIds docs f) ≠ []) :
    popQueries store f docs = [uniqueFirst (gatherIds docs f)] := by
  simp only [popQueries]
  rw [if_neg h]

theorem popDocs_length (store : List Doc) (f : String) (docs : List Doc) :
    (popDocs store f docs).length = docs.length := by
  by_cases h : uniqueFirst (gatherIds docs f) = []
  · rw [popDocs_nil_uniq store f docs h]
  · rw [popDocs_map store f docs h, List.length_map]

theorem dlookup_assignPop_self (fetched : List Doc) (f : String) (d : Doc) :
    dlookup (assignPop fetched f d) f = some (resolveVal fetched (dlookup d f)) :=
  dlookup_setKey_self d f _

theorem dlookup_assignPop_ne (fetched : List Doc) (f k : String) (d : Doc)
    (h : k ≠ f) : dlookup (assignPop fetched f d) k = dlookup d k :=
  dlookup_setKey_ne d f k _ h

theorem WfDoc_assignPop (fetched : List Doc) (f : String) (d : Doc) (h : WfDoc d) :
    WfDoc (assignPop fetched f d) := WfDoc_setKey d f _ h

theorem popDocs_lookup_resolve (store : List Doc) (f : String) (docs : List Doc)
    (i : Nat) (d : Doc) (v : Value)
    (hstore : WfStore store)
    (hd : docs[i]? = some d) (hv : dlookup d f = some v) :
    ∃ d', (popDocs store f docs)[i]? = some d' ∧
      dlookup d' f = some (resolveVal store (some v)) ∧
      ∀ k, k ≠ f → dlookup d' k = dlookup d k := by
  have hdm : d ∈ docs := List.getElem?_mem hd
  by_cases hu : uniqueFirst (gatherIds docs f) = []
  · refine ⟨d, by rw [popDocs_nil_uniq store f docs hu]; exact hd, ?_, fun k _ => rfl⟩
    have hgn : gatherIds docs f = [] := (uniqueFirst_nil_iff _).mp hu
    have hcn : contribution f d = [] := gather_nil_contribution f docs hgn d hdm
    by_cases harr : ∃ xs, v = .arr xs
    · obtain ⟨xs, rfl⟩ := harr
      have hxs : xs = [] := contribution_nil_arr f d xs hv hcn
      subst hxs
      rw [hv]
      rfl
    · push_neg at harr
      have hnull : v = .null := contribution_nil_scalar f d v hv harr hcn
      subst hnull
      rw [hv, (resolveVal_null_eq store (uniqueFirst (gatherIds docs f)) hstore).2]
  · rw [popDocs_map store f docs hu]
    refine ⟨assignPop (findByIdIn store (uniqueFirst (gatherIds docs f))) f d,
      by rw [List.getElem?_map, hd]; rfl, ?_, ?_⟩
    · rw [dlookup_assignPop_self, hv]
      by_cases harr : ∃ xs, v = .arr xs
      · obtain ⟨xs, rfl⟩ := harr
        rw [resolveVal_arr_eq store _ xs ?_]
        intro x hx
        rw [mem_uniqueFirst]
        exact contribution_subset_gather f docs d hdm x
          (mem_contribution_arr f d xs x hv hx)
      · push_neg at harr
        by_cases hnull : v = .null
        · subst hnull
          rw [(resolveVal_null_eq store (uniqueFirst (gatherIds docs f)) hstore).1,
            (resolveVal_null_eq store (uniqueFirst (gatherIds docs f)) hstore).2]
        · rw [resolveVal_scalar_eq store _ v harr ?_]
          rw [mem_uniqueFirst]
          exact contribution_subset_gather f docs d hdm v
            (mem_contribution_scalar f d v hv harr hnull)
    · intro k hk
      exact dlookup_assignPop_ne _ f k d hk

theorem popDocs_lookup_preserve (store : List Doc) (g f : String) (docs : List Doc)
    (i : Nat) (d : Doc) (hne : g ≠ f) (hd : docs[i]? = some d) :
    ∃ d', (popDocs store g docs)[i]? = some d' ∧ dlookup d' f = dlookup d f := by
  by_cases hu : uniqueFirst (gatherIds docs g) = []
  · exact ⟨d, by rw [popDocs_nil_uniq store g docs hu]; exact hd, rfl⟩
  · rw [popDocs_map store g docs hu]
    refine ⟨_, by rw [List.getElem?_map, hd]; rfl, ?_⟩
    exact dlookup_assignPop_ne _ g f d (fun he => hne he.symm)

/-! ## Structural lemmas about the populate loop -/

theorem populateAll_ok_of_configOk (reg : Registry) (defn : SchemaDef) :
    ∀ (fields : List String) (docs : List Doc),
      (∀ f ∈ fields, configOk reg defn f = true) →
      ∃ out qs, populateAll reg defn fields docs = .ok (out, qs) := by
  intro fields
  induction fields with
  | nil => intro docs _; exact ⟨docs, [], rfl⟩
  | cons f fs ih =>
    intro docs hcfg
    have hf : configOk reg defn f = true := hcfg f (List.mem_cons_self _ _)
    cases href : refNameOf defn f with
    | none => simp only [configOk, href] at hf; exact absurd hf (by simp)
    | some rn =>
      simp only [configOk, href] at hf
      cases hm : rlookup reg rn with
      | none => rw [hm] at hf; simp at hf
      | some m =>
        obtain ⟨out, qs, hok⟩ := ih (popDocs m.store f docs)
          (fun g hg => hcfg g (List.mem_cons_of_mem _ hg))
        refine ⟨out, (popQueries m.store f docs).map (fun q => (f, q)) ++ qs, ?_⟩
        simp only [populateAll, href, hm, hok]

theorem populateAll_error_indep (reg : Registry) (defn : SchemaDef) :
    ∀ (fields : List String) (docs docs' : List Doc) (e : PopError),
      populateAll reg defn fields docs = .error e →
      populateAll reg defn fields docs' = .error e := by
  intro fields
  induction fields with
  | nil => intro docs docs' e h; simp [populateAll] at h
  | cons f fs ih =>
    intro docs docs' e h
    cases href : refNameOf defn f with
    | none =>
      simp only [populateAll, href] at h ⊢
      exact h
    | some rn =>
      cases hm : rlookup reg rn with
      | none =>
        simp only [populateAll, href, hm] at h ⊢
        exact h
      | some m =>
        simp only [populateAll, href, hm] at h ⊢
        cases hrec : populateAll reg defn fs (popDocs m.store f docs) with
        | error e' =>
          rw [hrec] at h
          simp only [Except.error.injEq] at h
          subst h
          rw [ih _ (popDocs m.store f docs') e' hrec]
        | ok pr =>
          rw [hrec] at h
          cases pr
          simp at h



theorem populateAll_length (reg : Registry) (defn : SchemaDef) :
    ∀ (fields : List String) (docs out : List Doc) (qs : List (String × List Value)),
      populateAll reg defn fields docs = .ok (out, qs) → out.length = docs.length := by
  intro fields
  induction fields with
  | nil =>
    intro docs out qs h
    simp only [populateAll, Except.ok.injEq, Prod.mk.injEq] at h
    rw [← h.1]
  | cons f fs ih =>
    intro docs out qs h
    cases href : refNameOf defn f with
    | none => simp [populateAll, href] at h
    | some rn =>
      cases hm : rlookup reg rn with
      | none => simp [populateAll, href, hm] at h
      | some m =>
        simp only [populateAll, href, hm] at h
        cases hrec : populateAll reg defn fs (popDocs m.store f docs) with
        | error e => rw [hrec] at h; simp at h
        | ok pr =>
          obtain ⟨out', qs'⟩ := pr
          rw [hrec] at h
          simp only [Except.ok.injEq, Prod.mk.injEq] at h
          rw [← h.1, ih _ out' qs' hrec, popDocs_length]

theorem populateAll_preserve (reg : Registry) (defn : SchemaDef) :
    ∀ (fields : List String) (docs out : List Doc) (qs : List (String × List Value))
      (f : String) (i : Nat) (d : Doc),
      f ∉ fields → populateAll reg defn fields docs = .ok (out, qs) →
      docs[i]? = some d →
      ∃ d', out[i]? = some d' ∧ dlookup d' f = dlookup d f := by
  intro fields
  induction fields with
  | nil =>
    intro docs out qs f i d _ h hd
    simp only [populateAll, Except.ok.injEq, Prod.mk.injEq] at h
    exact ⟨d, by rw [← h.1]; exact hd, rfl⟩
  | cons g fs ih =>
    intro docs out qs f i d hnf h hd
    have hgf : g ≠ f := fun he => hnf (he ▸ List.mem_cons_self _ _)
    cases href : refNameOf defn g with
    | none => simp [populateAll, href] at h
    | some rn =>
      cases hm : rlookup reg rn with
      | none => simp [populateAll, href, hm] at h
      | some m =>
        simp only [populateAll, href, hm] at h
        cases hrec : populateAll reg defn fs (popDocs m.store g docs) with
        | error e => rw [hrec] at h; simp at h
        | ok pr =>
          obtain ⟨out', qs'⟩ := pr
          rw [hrec] at h
          simp only [Except.ok.injEq, Prod.mk.injEq] at h
          obtain ⟨d₁, hd₁, hl₁⟩ := popDocs_lookup_preserve m.store g f docs i d hgf hd
          obtain ⟨d', hd', hl'⟩ := ih (popDocs m.store g docs) out' qs' f i d₁
            (fun hc => hnf (List.mem_cons_of_mem _ hc)) hrec hd₁
          exact ⟨d', by rw [← h.1]; exact hd', by rw [hl', hl₁]⟩

theorem populateAll_resolves (reg : Registry) (defn : SchemaDef) :
    ∀ (fields : List String) (docs out : List Doc) (qs : List (String × List Value))
      (f rn : String) (m : ModelState) (i : Nat) (d : Doc) (v : Value),
      fields.Nodup → f ∈ fields →
      refNameOf defn f = some rn → rlookup reg rn = some m → WfStore m.store →
      populateAll reg defn fields docs = .ok (out, qs) →
      docs[i]? = some d → dlookup d f = some v →
      ∃ d', out[i]? = some d' ∧ dlookup d' f = some (resolveVal m.store (some v)) := by
  intro fields
  induction fields with
  | nil =>
    intro docs out qs f rn m i d v _ hf
    simp at hf
  | cons g fs ih =>
    intro docs out qs f rn m i d v hnd hf href hm hstore h hd hv
    cases href' : refNameOf defn g with
    | none => simp [populateAll, href'] at h
    | some rn' =>
      cases hm' : rlookup reg rn' with
      | none => simp [populateAll, href', hm'] at h
      | some m' =>
        simp only [populateAll, href', hm'] at h
        cases hrec : populateAll reg defn fs (popDocs m'.store g docs) with
        | error e => rw [hrec] at h; simp at h
        | ok pr =>
          obtain ⟨out', qs'⟩ := pr
          rw [hrec] at h
          simp only [Except.ok.injEq, Prod.mk.injEq] at h
          rcases List.mem_cons.mp hf with rfl | hf'
          · obtain rfl : rn' = rn := Option.some.inj (href'.symm.trans href)
            obtain rfl : m' = m := Option.some.inj (hm'.symm.trans hm)
            obtain ⟨d₁, hd₁, hl₁, _⟩ :=
              popDocs_lookup_resolve m'.store f docs i d v hstore hd hv
            have hnf : f ∉ fs := (List.nodup_cons.mp hnd).1
            obtain ⟨d', hd', hl'⟩ := populateAll_preserve reg defn fs _ out' qs' f i d₁
              hnf hrec hd₁
            exact ⟨d', by rw [← h.1]; exact hd', by rw [hl', hl₁]⟩
          · by_cases hgf : g = f
            · subst hgf
              exact absurd hf' (List.nodup_cons.mp hnd).1
            · obtain ⟨d₁, hd₁, hl₁⟩ := popDocs_lookup_preserve m'.store g f docs i d hgf hd
              obtain ⟨d', hd', hl'⟩ := ih (popDocs m'.store g docs) out' qs' f rn m i d₁ v
                (List.nodup_cons.mp hnd).2 hf' href hm hstore hrec hd₁
                (by rw [hl₁]; exact hv)
              exact ⟨d', by rw [← h.1]; exact hd', hl'⟩

/-! ## Claim theorems: populate resolver -/

/-- C1: after populate, a document whose populated field held an ordered
sequence of identifiers holds the ordered sequence of resolved documents for
its original identifiers, with identifiers matching no document of the
referenced store dropped (`filterMap`): the array may shrink and the relative
order of the matched elements follows the order of the original identifiers. -/
theorem C1_populate_array_order (reg : Registry) (defn : SchemaDef)
    (fields : List String) (docs out : List Doc) (qs : List (String × List Value))
    (f rn : String) (m : ModelState) (i : Nat) (d : Doc) (xs : List Value)
    (hnd : fields.Nodup) (hf : f ∈ fields)
    (href : refNameOf defn f = some rn) (hm : rlookup reg rn = some m)
    (hstore : WfStore m.store)
    (hok : populateAll reg defn fields docs = .ok (out, qs))
    (hd : docs[i]? = some d) (hv : dlookup d f = some (.arr xs)) :
    ∃ d', out[i]? = some d' ∧
      dlookup d' f =
        some (.arr (xs.filterMap (fun id => (findLastId m.store id).map Value.obj))) := by
  obtain ⟨d', h1, h2⟩ := populateAll_resolves reg defn fields docs out qs f rn m i d
    (.arr xs) hnd hf href hm hstore hok hd hv
  exact ⟨d', h1, h2⟩

theorem C1_populate_array_order_witness :
    ∃ d',
      ([[("_id", Value.str "a"),
         ("books", Value.arr [.obj [("_id", Value.str "1"), ("t", Value.str "x")],
                              .obj [("_id", Value.str "3"), ("t", Value.str "z")]])]])[0]? =
        some d' ∧
      dlookup d' "books" =
        some (.arr ([Value.str "1", Value.str "2", Value.str "3"].filterMap
          (fun id => (findLastId exBookStore id).map Value.obj))) :=
  C1_populate_array_order exRegistryB exDefnAuthor ["books"] [exAuthor]
    [[("_id", Value.str "a"),
      ("books", Value.arr [.obj [("_id", Value.str "1"), ("t", Value.str "x")],
                           .obj [("_id", Value.str "3"), ("t", Value.str "z")]])]]
    [("books", [Value.str "1", Value.str "2", Value.str "3"])]
    "books" "Book" ⟨exDefnBook, {}, exBookStore⟩ 0 exAuthor
    [Value.str "1", Value.str "2", Value.str "3"]
    (by decide) (by decide) (by decide) rfl (by decide) (by decide) (by decide) (by decide)

/-- C5: a populated scalar (non-array) reference field whose identifier
matches no document of the referenced store is replaced by the null sentinel,
and the populate pass as a whole still succeeds (given the configuration
checks pass for every requested field). -/
theorem C5_populate_scalar_miss (reg : Registry) (defn : SchemaDef)
    (fields : List String) (docs : List Doc) (f rn : String) (m : ModelState)
    (i : Nat) (d : Doc) (v : Value)
    (hnd : fields.Nodup) (hf : f ∈ fields)
    (href : refNameOf defn f = some rn) (hm : rlookup reg rn = some m)
    (hstore : WfStore m.store)
    (hcfg : ∀ g ∈ fields, configOk reg defn g = true)
    (hd : docs[i]? = some d) (hv : dlookup d f = some v)
    (hna : ∀ xs, v ≠ .arr xs) (hmiss : findLastId m.store v = none) :
    ∃ out qs, populateAll reg defn fields docs = .ok (out, qs) ∧
      ∃ d', out[i]? = some d' ∧ dlookup d' f = some Value.null := by
  obtain ⟨out, qs, hok⟩ := populateAll_ok_of_configOk reg defn fields docs hcfg
  obtain ⟨d', h1, h2⟩ := populateAll_resolves reg defn fields docs out qs f rn m i d v
    hnd hf href hm hstore hok hd hv
  refine ⟨out, qs, hok, d', h1, ?_⟩
  rw [h2, resolveVal_scalar_eq_objOrNull m.store v hna, hmiss]
  rfl

theorem C5_populate_scalar_miss_witness :
    ∃ out qs,
      populateAll exRegistryA exDefnBook ["author"]
        [[("_id", Value.str "9"), ("author", Value.str "zz")]] = .ok (out, qs) ∧
      ∃ d', out[0]? = some d' ∧ dlookup d' "author" = some Value.null :=
  C5_populate_scalar_miss exRegistryA exDefnBook ["author"]
    [[("_id", Value.str "9"), ("author", Value.str "zz")]]
    "author" "Author" ⟨[], {}, [exAuthorDoc]⟩ 0
    [("_id", Value.str "9"), ("author", Value.str "zz")] (Value.str "zz")
    (by decide) (by decide) (by decide) rfl (by decide) (by decide) (by decide)
    (by decide) (fun xs h => by cases h) (by decide)

/-- C10: during populate of one field, whether a document with a null or
absent value is rewritten depends on the rest of the result set: when the
deduplicated batch key set gathered across all documents is empty, no
document is modified (absent fields stay absent); when it is non-empty,
every document's field is overwritten — in particular a document whose field
was absent or null ends with the field explicitly set to null. -/
theorem C10_scalar_nullfill (store : List Doc) (f : String) (docs : List Doc)
    (hstore : WfStore store) :
    (uniqueFirst (gatherIds docs f) = [] → popDocs store f docs = docs) ∧
    (uniqueFirst (gatherIds docs f) ≠ [] →
      ∀ (i : Nat) (d : Doc), docs[i]? = some d →
      ∃ d', (popDocs store f docs)[i]? = some d' ∧
        (dlookup d' f).isSome = true ∧
        (isNullish (dlookup d f) = true → dlookup d' f = some Value.null)) := by
  refine ⟨popDocs_nil_uniq store f docs, ?_⟩
  intro hu i d hd
  rw [popDocs_map store f docs hu]
  refine ⟨assignPop (findByIdIn store (uniqueFirst (gatherIds docs f))) f d,
    by rw [List.getElem?_map, hd]; rfl, ?_, ?_⟩
  · rw [dlookup_assignPop_self]; rfl
  · intro hnl
    rw [dlookup_assignPop_self]
    cases hval : dlookup d f with
    | none => rfl
    | some v =>
      rw [hval] at hnl
      have hvn : v = .null := by
        cases v
        case null => rfl
        all_goals simp [isNullish] at hnl
      subst hvn
      rw [(resolveVal_null_eq store (uniqueFirst (gatherIds docs f)) hstore).1]

theorem C10_scalar_nullfill_witness :
    ∃ d', (popDocs [exAuthorDoc] "author" exBooks)[0]? = some d' ∧
      (dlookup d' "author").isSome = true ∧
      (isNullish (dlookup exBook1 "author") = true →
        dlookup d' "author" = some Value.null) :=
  (C10_scalar_nullfill [exAuthorDoc] "author" exBooks (by decide)).2
    (by decide) 0 exBook1 (by decide)



/-! ## Query counting lemmas -/

theorem filter_nil_of_false {α : Type} (l : List α) (p : α → Bool)
    (h : ∀ a ∈ l, p a = false) : l.filter p = [] := by
  induction l with
  | nil => rfl
  | cons a l ih =>
    rw [List.filter_cons, if_neg (by simp [h a (List.mem_cons_self _ _)])]
    exact ih (fun b hb => h b (List.mem_cons_of_mem _ hb))

theorem popQueries_length_le (store : List Doc) (f : String) (docs : List Doc) :
    (popQueries store f docs).length ≤ 1 := by
  by_cases h : uniqueFirst (gatherIds docs f) = []
  · rw [popQueries_nil_uniq store f docs h]; exact Nat.zero_le 1
  · rw [popQueries_one store f docs h]; exact Nat.le_refl 1

theorem populateAll_tags (reg : Registry) (defn : SchemaDef) :
    ∀ (fields : List String) (docs out : List Doc) (qs : List (String × List Value)),
      populateAll reg defn fields docs = .ok (out, qs) →
      ∀ q ∈ qs, q.1 ∈ fields := by
  intro fields
  induction fields with
  | nil =>
    intro docs out qs h q hq
    simp only [populateAll, Except.ok.injEq, Prod.mk.injEq] at h
    rw [← h.2] at hq
    simp at hq
  | cons g fs ih =>
    intro docs out qs h q hq
    cases href : refNameOf defn g with
    | none => simp [populateAll, href] at h
    | some rn =>
      cases hm : rlookup reg rn with
      | none => simp [populateAll, href, hm] at h
      | some m =>
        simp only [populateAll, href, hm] at h
        cases hrec : populateAll reg defn fs (popDocs m.store g docs) with
        | error e => rw [hrec] at h; simp at h
        | ok pr =>
          obtain ⟨out', qs'⟩ := pr
          rw [hrec] at h
          simp only [Except.ok.injEq, Prod.mk.injEq] at h
          rw [← h.2] at hq
          rcases List.mem_append.mp hq with hq | hq
          · obtain ⟨q', _, hq'⟩ := List.mem_map.mp hq
            rw [← hq']
            exact List.mem_cons_self _ _
          · exact List.mem_cons_of_mem _ (ih _ out' qs' hrec q hq)

theorem populateAll_count (reg : Registry) (defn : SchemaDef) :
    ∀ (fields : List String) (docs out : List Doc) (qs : List (String × List Value))
      (f : String),
      fields.Nodup → populateAll reg defn fields docs = .ok (out, qs) →
      (qs.filter (fun q => decide (q.1 = f))).length ≤ 1 := by
  intro fields
  induction fields with
  | nil =>
    intro docs out qs f _ h
    simp only [populateAll, Except.ok.injEq, Prod.mk.injEq] at h
    rw [← h.2]
    exact Nat.zero_le 1
  | cons g fs ih =>
    intro docs out qs f hnd h
    cases href : refNameOf defn g with
    | none => simp [populateAll, href] at h
    | some rn =>
      cases hm : rlookup reg rn with
      | none => simp [populateAll, href, hm] at h
      | some m =>
        simp only [populateAll, href, hm] at h
        cases hrec : populateAll reg defn fs (popDocs m.store g docs) with
        | error e => rw [hrec] at h; simp at h
        | ok pr =>
          obtain ⟨out', qs'⟩ := pr
          rw [hrec] at h
          simp only [Except.ok.injEq, Prod.mk.injEq] at h
          rw [← h.2, List.filter_append, List.length_append]
          have htags : ∀ q ∈ qs', q.1 ∈ fs := populateAll_tags reg defn fs _ out' qs' hrec
          by_cases hgf : g = f
          · subst hgf
            have hz : (qs'.filter (fun q => decide (q.1 = g))).length = 0 := by
              rw [filter_nil_of_false qs' _ ?_]
              · rfl
              · intro q hq
                simp only [decide_eq_false_iff_not]
                intro he
                exact (List.nodup_cons.mp hnd).1 (he ▸ htags q hq)
            rw [hz, Nat.add_zero]
            calc ((popQueries m.store g docs).map (fun q => (g, q))
                  |>.filter (fun q => decide (q.1 = g))).length
                ≤ ((popQueries m.store g docs).map (fun q => (g, q))).length :=
                  List.length_filter_le _ _
              _ = (popQueries m.store g docs).length := List.length_map _ _
              _ ≤ 1 := popQueries_length_le m.store g docs
          · have hz : (((popQueries m.store g docs).map (fun q => (g, q))).filter
                (fun q => decide (q.1 = f))).length = 0 := by
              rw [filter_nil_of_false _ _ ?_]
              · rfl
              · intro q hq
                obtain ⟨q', _, hq'⟩ := List.mem_map.mp hq
                simp only [decide_eq_false_iff_not]
                rw [← hq']
                exact hgf
            rw [hz, Nat.zero_add]
            exact ih _ out' qs' f (List.nodup_cons.mp hnd).2 hrec

/-! ## Claim theorem: batching -/

/-- C4: populating one field deduplicates the identifiers gathered across the
whole result set and issues at most one batched lookup for the field —
regardless of the result set — and no query at all when the deduplicated set
is empty; the issued query carries exactly the deduplicated identifier set.
Across a whole populate pass, at most one query is issued per requested
field. -/
theorem C4_batch_bounded :
    (∀ (store : List Doc) (f : String) (docs : List Doc),
      (popQueries store f docs).length ≤ 1 ∧
      (uniqueFirst (gatherIds docs f) = [] → popQueries store f docs = []) ∧
      (∀ q ∈ popQueries store f docs,
        q = uniqueFirst (gatherIds docs f) ∧ q.Nodup ∧
        (∀ x, x ∈ q ↔ x ∈ gatherIds docs f))) ∧
    (∀ (reg : Registry) (defn : SchemaDef) (fields : List String)
       (docs out : List Doc) (qs : List (String × List Value)) (f : String),
      fields.Nodup → populateAll reg defn fields docs = .ok (out, qs) →
      (qs.filter (fun q => decide (q.1 = f))).length ≤ 1) := by
  constructor
  · intro store f docs
    refine ⟨popQueries_length_le store f docs, popQueries_nil_uniq store f docs, ?_⟩
    intro q hq
    by_cases h : uniqueFirst (gatherIds docs f) = []
    · rw [popQueries_nil_uniq store f docs h] at hq
      simp at hq
    · rw [popQueries_one store f docs h] at hq
      obtain rfl : q = uniqueFirst (gatherIds docs f) := List.mem_singleton.mp hq
      exact ⟨rfl, nodup_uniqueFirst _, fun x => mem_uniqueFirst x _⟩
  · intro reg defn fields docs out qs f hnd hok
    exact populateAll_count reg defn fields docs out qs f hnd hok

theorem C4_batch_bounded_witness :
    ((popQueries exBookStore "books" [exAuthor]).length ≤ 1 ∧
      (uniqueFirst (gatherIds [exAuthor] "books") = [] →
        popQueries exBookStore "books" [exAuthor] = []) ∧
      (∀ q ∈ popQueries exBookStore "books" [exAuthor],
        q = uniqueFirst (gatherIds [exAuthor] "books") ∧ q.Nodup ∧
        (∀ x, x ∈ q ↔ x ∈ gatherIds [exAuthor] "books"))) ∧
    ([("books", [Value.str "1", Value.str "2", Value.str "3"])].filter
      (fun q => decide (q.1 = "books"))).length ≤ 1 :=
  ⟨C4_batch_bounded.1 exBookStore "books" [exAuthor],
   C4_batch_bounded.2 exRegistryB exDefnAuthor ["books"] [exAuthor]
    [[("_id", Value.str "a"),
      ("books", Value.arr [.obj [("_id", Value.str "1"), ("t", Value.str "x")],
                           .obj [("_id", Value.str "3"), ("t", Value.str "z")]])]]
    [("books", [Value.str "1", Value.str "2", Value.str "3"])] "books"
    (by decide) (by decide)⟩

/-! ## Configuration-check lemmas and claim -/

theorem populateAll_config_error (reg : Registry) (defn : SchemaDef) :
    ∀ (pre : List String) (post : List String) (f : String),
      (∀ g ∈ pre, configOk reg defn g = true) → configOk reg defn f = false →
      ∃ e : PopError,
        (∀ docs, populateAll reg defn (pre ++ f :: post) docs = .error e) ∧
        (refNameOf defn f = none → e = .missingRef f) ∧
        (∀ rn, refNameOf defn f = some rn → e = .unknownModel rn) := by
  intro pre
  induction pre with
  | nil =>
    intro post f _ hbad
    cases href : refNameOf defn f with
    | none =>
      refine ⟨.missingRef f, ?_, fun _ => rfl, ?_⟩
      · intro docs
        simp [populateAll, href]
      · intro rn h
        cases h
    | some rn =>
      have hm : rlookup reg rn = none := by
        simp only [configOk, href] at hbad
        cases hm' : rlookup reg rn with
        | none => rfl
        | some m => rw [hm'] at hbad; simp at hbad
      refine ⟨.unknownModel rn, ?_, ?_, ?_⟩
      · intro docs
        simp [populateAll, href, hm]
      · intro h; cases h
      · intro rn' h
        rw [Option.some.inj h]
  | cons g pre' ih =>
    intro post f hpre hbad
    have hg : configOk reg defn g = true := hpre g (List.mem_cons_self _ _)
    cases href : refNameOf defn g with
    | none => simp only [configOk, href] at hg; exact absurd hg (by simp)
    | some rn =>
      simp only [configOk, href] at hg
      cases hm : rlookup reg rn with
      | none => rw [hm] at hg; simp at hg
      | some m =>
        obtain ⟨e, hall, h1, h2⟩ := ih post f
          (fun x hx => hpre x (List.mem_cons_of_mem _ hx)) hbad
        refine ⟨e, ?_, h1, h2⟩
        intro docs
        rw [List.cons_append]
        simp only [populateAll, href, hm]
        rw [hall (popDocs m.store g docs)]

/-- C6 as stated is refuted by the single-document direct-fetch path: with a
populate field lacking a `ref` and a filter matching no document, `findOne`
(no sort, no skip) returns the null sentinel successfully — the configuration
checks never run because populate is only invoked after a document is found.
The many path does fail on the same misconfiguration even with an empty
result set. -/
theorem C6_config_counterexample :
    refNameOf exDefnBook "nope" = none ∧
    execOne exRegistryA exDefnBook ["nope"] exBooks (fun _ => false) none none =
      .ok none ∧
    execMany exRegistryA exDefnBook ["nope"] exBooks (fun _ => false) none none none =
      .error (.missingRef "nope") :=
  ⟨by decide, by decide, by decide⟩

/-- C6 (amended): whenever the populate resolver runs — always in many mode,
and in single mode once a document was found or sort/skip forced the many
path — a field whose definition lacks a `ref` fails the execution with
`MissingRef` and a `ref` naming an unregistered model fails it with
`UnknownModel`; the checks precede identifier gathering, so in many mode they
fire even when the result set is empty.  A single-mode direct fetch matching
no document, however, returns the null sentinel without running populate. -/
theorem C6_config_checks (reg : Registry) (defn : SchemaDef)
    (pre post : List String) (f : String)
    (hpre : ∀ g ∈ pre, configOk reg defn g = true)
    (hbad : configOk reg defn f = false) :
    ∃ e : PopError,
      (∀ docs, populateAll reg defn (pre ++ f :: post) docs = .error e) ∧
      (∀ store filt sortFn skp lim,
        execMany reg defn (pre ++ f :: post) store filt sortFn skp lim = .error e) ∧
      (∀ store filt sortFn skp, sortFn ≠ none →
        execOne reg defn (pre ++ f :: post) store filt sortFn skp = .error e) ∧
      (refNameOf defn f = none → e = .missingRef f) ∧
      (∀ rn, refNameOf defn f = some rn → e = .unknownModel rn) := by
  obtain ⟨e, hall, h1, h2⟩ := populateAll_config_error reg defn pre post f hpre hbad
  refine ⟨e, hall, ?_, ?_, h1, h2⟩
  · intro store filt sortFn skp lim
    unfold execMany
    rw [hall (buildCursor store filt sortFn skp lim)]
  · intro store filt sortFn skp hs
    cases sortFn with
    | none => exact absurd rfl hs
    | some sf =>
      unfold execOne
      rw [if_pos (by simp)]
      unfold execMany
      rw [hall (buildCursor store filt (some sf) skp none)]

theorem C6_config_checks_witness :
    populateAll exRegistryA exDefnBook ["nope"] [] = .error (.missingRef "nope") := by
  obtain ⟨e, hall, _, _, hn, _⟩ :=
    C6_config_checks exRegistryA exDefnBook [] [] "nope"
      (by intro g hg; simp at hg) (by decide)
  simp only [List.nil_append] at hall
  rw [hall [], hn (by decide)]



/-! ## Lemmas for the findOne/find-limit-1 comparison -/

theorem head?_take_one {α : Type} (l : List α) : (l.take 1).head? = l.head? := by
  cases l <;> rfl

theorem rlookup_mem (reg : Registry) : ∀ (n : String) (m : ModelState),
    rlookup reg n = some m → ∃ n', (n', m) ∈ reg := by
  induction reg with
  | nil => intro n m h; simp [rlookup] at h
  | cons p r ih =>
    intro n m h
    obtain ⟨n₀, m₀⟩ := p
    by_cases h₀ : n₀ = n
    · subst h₀
      have h' : m₀ = m := by simpa [rlookup] using h
      subst h'
      exact ⟨n₀, List.mem_cons_self _ _⟩
    · simp only [rlookup, if_neg h₀] at h
      obtain ⟨n', hm⟩ := ih n m h
      exact ⟨n', List.mem_cons_of_mem _ hm⟩

theorem WfDocs_popDocs (store : List Doc) (f : String) (docs : List Doc)
    (h : ∀ d ∈ docs, WfDoc d) : ∀ d ∈ popDocs store f docs, WfDoc d := by
  by_cases hu : uniqueFirst (gatherIds docs f) = []
  · rw [popDocs_nil_uniq store f docs hu]; exact h
  · rw [popDocs_map store f docs hu]
    intro d hd
    obtain ⟨d₀, hd₀, rfl⟩ := List.mem_map.mp hd
    exact WfDoc_assignPop _ f d₀ (h d₀ hd₀)

theorem headPres_popDocs (store : List Doc) (f g : String) (docs : List Doc)
    (hf : HeadPres docs f) : HeadPres (popDocs store g docs) f := by
  by_cases hu : uniqueFirst (gatherIds docs g) = []
  · rw [popDocs_nil_uniq store g docs hu]; exact hf
  · rw [popDocs_map store g docs hu]
    intro d1 hd1
    cases docs with
    | nil => simp at hd1
    | cons d0 rest =>
      simp only [List.map_cons, List.head?_cons, Option.some.injEq] at hd1
      subst hd1
      by_cases hfg : f = g
      · subst hfg
        rw [dlookup_assignPop_self]
        simp
      · rw [dlookup_assignPop_ne _ g f d0 hfg]
        exact hf d0 rfl

theorem resolveVal_fetched_eq (store : List Doc) (uniq : List Value) (v : Value)
    (hstore : WfStore store)
    (harr : ∀ xs, v = .arr xs → ∀ x ∈ xs, x ∈ uniq)
    (hscalar : (∀ xs, v ≠ .arr xs) → v ≠ .null → v ∈ uniq) :
    resolveVal (findByIdIn store uniq) (some v) = resolveVal store (some v) := by
  by_cases ha : ∃ xs, v = .arr xs
  · obtain ⟨xs, rfl⟩ := ha
    exact resolveVal_arr_eq store uniq xs (harr xs rfl)
  · push_neg at ha
    by_cases hn : v = .null
    · subst hn
      rw [(resolveVal_null_eq store uniq hstore).1,
        (resolveVal_null_eq store uniq hstore).2]
    · exact resolveVal_scalar_eq store uniq v ha (hscalar ha hn)

theorem popDocs_take1 (store : List Doc) (f : String) (docs : List Doc)
    (hwf : ∀ d ∈ docs, WfDoc d) (hstore : WfStore store) (hpres : HeadPres docs f) :
    popDocs store f (docs.take 1) = (popDocs store f docs).take 1 := by
  cases docs with
  | nil =>
    rw [List.take_nil, popDocs_nil_uniq store f [] rfl, List.take_nil]
  | cons d0 rest =>
    have htake : (d0 :: rest).take 1 = [d0] := rfl
    rw [htake]
    have hv0 : ∃ v, dlookup d0 f = some v := by
      cases hval : dlookup d0 f with
      | none => exact absurd hval (hpres d0 rfl)
      | some v => exact ⟨v, rfl⟩
    obtain ⟨v, hv⟩ := hv0
    have hwf0 : WfDoc d0 := hwf d0 (List.mem_cons_self _ _)
    have hgB : gatherIds [d0] f = contribution f d0 := by
      rw [gatherIds, gatherIds, List.append_nil]
    by_cases huA : uniqueFirst (gatherIds (d0 :: rest) f) = []
    · have hgA : gatherIds (d0 :: rest) f = [] := (uniqueFirst_nil_iff _).mp huA
      have hc0 : contribution f d0 = [] :=
        gather_nil_contribution f _ hgA d0 (List.mem_cons_self _ _)
      rw [popDocs_nil_uniq store f [d0]
          ((uniqueFirst_nil_iff _).mpr (by rw [hgB, hc0])),
        popDocs_nil_uniq store f _ huA, htake]
    · rw [popDocs_map store f _ huA]
      simp only [List.map_cons]
      rw [show ((assignPop (findByIdIn store (uniqueFirst (gatherIds (d0 :: rest) f))) f d0)
          :: rest.map (assignPop (findByIdIn store (uniqueFirst (gatherIds (d0 :: rest) f))) f)).take 1 =
        [assignPop (findByIdIn store (uniqueFirst (gatherIds (d0 :: rest) f))) f d0] from rfl]
      by_cases huB : uniqueFirst (gatherIds [d0] f) = []
      · have hc0 : contribution f d0 = [] := by
          have := (uniqueFirst_nil_iff _).mp huB
          rw [hgB] at this
          exact this
        rw [popDocs_nil_uniq store f [d0] huB]
        have hval : resolveVal (findByIdIn store (uniqueFirst (gatherIds (d0 :: rest) f)))
            (some v) = v := by
          by_cases ha : ∃ xs, v = .arr xs
          · obtain ⟨xs, rfl⟩ := ha
            have hxs : xs = [] := contribution_nil_arr f d0 xs hv hc0
            subst hxs
            rfl
          · push_neg at ha
            have hn : v = .null := contribution_nil_scalar f d0 v hv ha hc0
            subst hn
            exact (resolveVal_null_eq store (uniqueFirst (gatherIds (d0 :: rest) f)) hstore).1
        have : assignPop (findByIdIn store (uniqueFirst (gatherIds (d0 :: rest) f))) f d0 = d0 := by
          unfold assignPop
          rw [hv, hval]
          exact setKey_same d0 f v hwf0 hv
        rw [this]
      · rw [popDocs_map store f [d0] huB]
        simp only [List.map_cons, List.map_nil]
        have hmemB : ∀ x ∈ contribution f d0, x ∈ uniqueFirst (gatherIds [d0] f) := by
          intro x hx
          rw [mem_uniqueFirst, hgB]
          exact hx
        have hmemA : ∀ x ∈ contribution f d0, x ∈ uniqueFirst (gatherIds (d0 :: rest) f) := by
          intro x hx
          rw [mem_uniqueFirst]
          exact contribution_subset_gather f (d0 :: rest) d0 (List.mem_cons_self _ _) x hx
        have heq : assignPop (findByIdIn store (uniqueFirst (gatherIds [d0] f))) f d0 =
            assignPop (findByIdIn store (uniqueFirst (gatherIds (d0 :: rest) f))) f d0 := by
          unfold assignPop
          rw [hv]
          rw [resolveVal_fetched_eq store _ v hstore
              (fun xs hxs x hx => hmemB x (by rw [hxs] at hv; exact mem_contribution_arr f d0 xs x hv hx))
              (fun hna hnn => hmemB v (mem_contribution_scalar f d0 v hv hna hnn)),
            resolveVal_fetched_eq store _ v hstore
              (fun xs hxs x hx => hmemA x (by rw [hxs] at hv; exact mem_contribution_arr f d0 xs x hv hx))
              (fun hna hnn => hmemA v (mem_contribution_scalar f d0 v hv hna hnn))]
        rw [heq]

theorem populateAll_take1 (reg : Registry) (defn : SchemaDef) :
    ∀ (fields : List String) (docs out : List Doc) (qs : List (String × List Value)),
      (∀ d ∈ docs, WfDoc d) → WfRegistry reg →
      (∀ f ∈ fields, HeadPres docs f) →
      populateAll reg defn fields docs = .ok (out, qs) →
      ∃ qs1, populateAll reg defn fields (docs.take 1) = .ok (out.take 1, qs1) := by
  intro fields
  induction fields with
  | nil =>
    intro docs out qs _ _ _ h
    simp only [populateAll, Except.ok.injEq, Prod.mk.injEq] at h
    exact ⟨[], by rw [← h.1]; rfl⟩
  | cons g fs ih =>
    intro docs out qs hwf hreg hpres h
    cases href : refNameOf defn g with
    | none => simp [populateAll, href] at h
    | some rn =>
      cases hm : rlookup reg rn with
      | none => simp [populateAll, href, hm] at h
      | some m =>
        simp only [populateAll, href, hm] at h
        cases hrec : populateAll reg defn fs (popDocs m.store g docs) with
        | error e => rw [hrec] at h; simp at h
        | ok pr =>
          obtain ⟨out', qs'⟩ := pr
          rw [hrec] at h
          simp only [Except.ok.injEq, Prod.mk.injEq] at h
          have hstore : WfStore m.store := by
            obtain ⟨n', hmem⟩ := rlookup_mem reg rn m hm
            exact hreg (n', m) hmem
          have hstep : popDocs m.store g (docs.take 1) = (popDocs m.store g docs).take 1 :=
            popDocs_take1 m.store g docs hwf hstore (hpres g (List.mem_cons_self _ _))
          obtain ⟨qs1, hok1⟩ := ih (popDocs m.store g docs) out' qs'
            (WfDocs_popDocs m.store g docs hwf) hreg
            (fun f hf => headPres_popDocs m.store f g docs
              (hpres f (List.mem_cons_of_mem _ hf)))
            hrec
          refine ⟨(popQueries m.store g (docs.take 1)).map (fun q => (g, q)) ++ qs1, ?_⟩
          simp only [populateAll, href, hm, hstep, hok1]
          rw [← h.1]

/-! ## Claim theorems: findOne/find equivalence -/

/-- C3 as stated is refuted by this input: populating a scalar field,
findOne-with-sort runs populate over the whole sorted result set, so the
absent `author` field of the first document is overwritten with an explicit
null (because the other matching document references the field); find with
limit 1 populates only the first document, gathers no identifiers, and leaves
the field absent.  The two results differ. -/
theorem C3_counterexample :
    execOne exRegistryA exDefnBook ["author"] exBooks (fun _ => true)
        (some (fun l => l)) none =
      .ok (some [("_id", Value.str "1"), ("s", Value.str "a"), ("author", Value.null)]) ∧
    Except.map List.head?
        (execMany exRegistryA exDefnBook ["author"] exBooks (fun _ => true)
          (some (fun l => l)) none (some 1)) =
      .ok (some [("_id", Value.str "1"), ("s", Value.str "a")]) ∧
    execOne exRegistryA exDefnBook ["author"] exBooks (fun _ => true)
        (some (fun l => l)) none ≠
      Except.map List.head?
        (execMany exRegistryA exDefnBook ["author"] exBooks (fun _ => true)
          (some (fun l => l)) none (some 1)) :=
  ⟨by decide, by decide, by decide⟩

/-- C3 (amended): for every filter, sort and populate-field set, a
single-mode query with sort set returns exactly the first element of the
many-mode query with the same filter, sort and limit 1 — populate applied —
provided the first sorted document defines (possibly as null) every populated
field.  (Without that proviso, a populated scalar field absent from the first
document may be materialized as an explicit null only on the findOne path;
documents and registry stores satisfy the standard well-formedness of stored
JS objects: distinct keys and non-null identifiers.) -/
theorem C3_findOne_sort_limit1 (reg : Registry) (defn : SchemaDef)
    (fields : List String) (store : List Doc) (filt : Doc → Bool)
    (sortFn : List Doc → List Doc)
    (hwf : ∀ d ∈ sortFn (store.filter filt), WfDoc d)
    (hreg : WfRegistry reg)
    (hpres : ∀ f ∈ fields, HeadPres (sortFn (store.filter filt)) f) :
    execOne reg defn fields store filt (some sortFn) none =
      Except.map List.head?
        (execMany reg defn fields store filt (some sortFn) none (some 1)) := by
  unfold execOne
  rw [if_pos (by simp)]
  unfold execMany
  have hcur : buildCursor store filt (some sortFn) none none =
      sortFn (store.filter filt) := rfl
  have hcur1 : buildCursor store filt (some sortFn) none (some 1) =
      (sortFn (store.filter filt)).take 1 := rfl
  rw [hcur, hcur1]
  cases hA : populateAll reg defn fields (sortFn (store.filter filt)) with
  | error e =>
    rw [populateAll_error_indep reg defn fields _ _ e hA]
    rfl
  | ok pr =>
    obtain ⟨out, qs⟩ := pr
    obtain ⟨qs1, hB⟩ := populateAll_take1 reg defn fields (sortFn (store.filter filt))
      out qs hwf hreg hpres hA
    rw [hB]
    simp only [Except.map]
    rw [head?_take_one]

theorem C3_findOne_sort_limit1_witness :
    execOne exRegistryA exDefnBook ["author"] [exBook2] (fun _ => true)
        (some (fun l => l)) none =
      Except.map List.head?
        (execMany exRegistryA exDefnBook ["author"] [exBook2] (fun _ => true)
          (some (fun l => l)) none (some 1)) :=
  C3_findOne_sort_limit1 exRegistryA exDefnBook ["author"] [exBook2] (fun _ => true)
    (fun l => l) (by decide) (by decide)
    (by
      intro f hf d0 hd0
      have h2 : some exBook2 = some d0 := hd0
      obtain rfl := Option.some.inj h2
      rcases List.mem_singleton.mp hf with rfl
      decide)


end Nedboose
